import Mathlib

/-!
Atmosbyte: delivery worker, status endpoint, SQLite repository and aggregation.

A shallow embedding of `queue_worker.go`, `repository/errors.go`,
`repository/sqlite.go`, `web/handlers.go` and `weather/aggregate.go`.

Conventions of the embedding.

* A Go `error` result is an `Option GoError`; `none` is the nil error.
* Collaborators reached through an interface or a pointer (the store, the
  remote client) are state-passing functions over a world `W`; every call a
  function makes on them is recorded, in order, in the list of `Call`s it
  returns.
* `float64` is a type parameter `F`; `int64` and `int` fields are `Int`.
* `time.Time` is an instant, counted in nanoseconds since the Unix epoch, with the
  zone in force at it and the monotonic clock reading, if the value has one.
-/

namespace Atmosbyte

/-! ## Values shared by the packages -/

/-- A value of `time.Time`: the nanoseconds elapsed since the Unix epoch, the
offset east of UTC in seconds and the abbreviation of the zone in force at that
instant in the value's location, and the monotonic clock reading in nanoseconds
when the value carries one, as the values of `time.Now()` do. -/
structure Time where
  nanos : Int
  offset : Int
  zone : String
  monotonic : Option Int
deriving DecidableEq, Repr

/-- The time at `nanos` nanoseconds since the epoch, in UTC and with no monotonic
clock reading. -/
def Time.utc (nanos : Int) : Time := ⟨nanos, 0, "UTC", none⟩

/-- Go `Time.Unix`: whole seconds since the epoch, rounded towards minus infinity. -/
def Time.Unix (t : Time) : Int := t.nanos / 1000000000

/-- Go `time.Unix(sec, 0)`, of which the callers read the instant only; the zone
is left at UTC. -/
def Time.ofUnix (sec : Int) : Time := ⟨sec * 1000000000, 0, "UTC", none⟩

/-! ## The text of a time (`Time.String` of the standard library) -/

/-- The decimal digit of `d` as a character. -/
def digitChar (d : Nat) : Char := Char.ofNat (48 + d % 10)

/-- The decimal digits of `n`, the most significant first, at most `fuel` of them. -/
def natDigits : Nat → Nat → List Char
  | 0, _ => []
  | fuel + 1, n => if n < 10 then [digitChar n] else natDigits fuel (n / 10) ++ [digitChar n]

/-- Go `appendInt(b, x, width)`: the decimal digits of `x`, padded with zeros to
`width`, after a minus sign when `x` is negative. -/
def appendInt (x : Int) (width : Nat) : List Char :=
  let digits := natDigits 20 x.natAbs
  let padded := List.replicate (width - digits.length) '0' ++ digits
  if x < 0 then '-' :: padded else padded

/-- The year, month and day of the proleptic Gregorian calendar that begin `days`
days after 1970-01-01. -/
def civilFromDays (days : Int) : Int × Int × Int :=
  let z := days + 719468
  let era := z / 146097
  let doe := z - era * 146097
  let yoe := (doe - doe / 1460 + doe / 36524 - doe / 146096) / 365
  let doy := doe - (365 * yoe + yoe / 4 - yoe / 100)
  let mp := (5 * doy + 2) / 153
  let d := doy - (153 * mp + 2) / 5 + 1
  let m := if mp < 10 then mp + 3 else mp - 9
  (if m ≤ 2 then yoe + era * 400 + 1 else yoe + era * 400, m, d)

/-- The digits without their trailing zeros. -/
def trimZeros (digits : List Char) : List Char :=
  (digits.reverse.dropWhile (fun c => c == '0')).reverse

/-- The fraction of a second in the layout `.999999999`: nothing for a whole
second, otherwise a point and the nanoseconds without trailing zeros. -/
def appendNano (nanosec : Int) : List Char :=
  if nanosec = 0 then [] else '.' :: trimZeros (appendInt nanosec 9)

/-- The offset in the layout `-0700`: sign, hours and minutes. -/
def numericZone (offset : Int) : List Char :=
  let zone := offset.natAbs / 60
  (if offset < 0 ∧ zone ≠ 0 then '-' else '+')
    :: (appendInt ((zone / 60 : Nat) : Int) 2 ++ appendInt ((zone % 60 : Nat) : Int) 2)

/-- The suffix `m=±seconds.nanoseconds` that `Time.String` adds for a monotonic
clock reading. -/
def monotonicText : Option Int → List Char
  | none => []
  | some ext =>
    let m2 := ext.natAbs
    let m1 := m2 / 1000000000
    let m0 := m1 / 1000000000
    [' ', 'm', '=', if ext < 0 then '-' else '+']
      ++ (if m0 ≠ 0 then appendInt (m0 : Nat) 0 ++ appendInt ((m1 % 1000000000 : Nat) : Int) 9
          else appendInt ((m1 % 1000000000 : Nat) : Int) 0)
      ++ ['.'] ++ appendInt ((m2 % 1000000000 : Nat) : Int) 9

/-- The characters of `Time.String`: the layout
`2006-01-02 15:04:05.999999999 -0700 MST` on the wall clock of the value, where
a zone without abbreviation is written as its offset, followed by the monotonic
clock reading if there is one. -/
def Time.text (t : Time) : List Char :=
  let wall := t.nanos / 1000000000 + t.offset
  let date := civilFromDays (wall / 86400)
  let clock := wall % 86400
  appendInt date.1 4 ++ ['-'] ++ appendInt date.2.1 2 ++ ['-'] ++ appendInt date.2.2 2 ++ [' ']
    ++ appendInt (clock / 3600) 2 ++ [':'] ++ appendInt (clock % 3600 / 60) 2 ++ [':']
    ++ appendInt (clock % 60) 2 ++ appendNano (t.nanos % 1000000000) ++ [' ']
    ++ numericZone t.offset ++ [' ']
    ++ (if t.zone = "" then numericZone t.offset else t.zone.data)
    ++ monotonicText t.monotonic

/-- Go `Time.String`. -/
def Time.String (t : Time) : String := ⟨t.text⟩

/-- The time a scan gives back for a stored text: the driver parses the text of
`Time.String` after cutting the monotonic clock reading, which leaves the
instant, the offset and the abbreviation. The abbreviation is taken to be one
the layout reads back, as the abbreviations of named zones are. -/
def Time.scanned (t : Time) : Time := ⟨t.nanos, t.offset, t.zone, none⟩

/-- The comparison of two texts by the engine, `memcmp` and then the length: the
first differing character decides, and a text comes before its extensions. -/
def memcmpLe : List Char → List Char → Bool
  | [], _ => true
  | _ :: _, [] => false
  | a :: as, b :: bs =>
    if a.toNat < b.toNat then true
    else if b.toNat < a.toNat then false
    else memcmpLe as bs

/-- The text `a` is at most the text `b` in the order the engine compares texts in. -/
def textLe (a b : String) : Prop := memcmpLe a.data b.data = true

instance (a b : String) : Decidable (textLe a b) :=
  inferInstanceAs (Decidable (memcmpLe a.data b.data = true))

/-- The times of the list are ordered by their texts as they are as instants. -/
def OrderedAsInstants (times : List Time) : Prop :=
  ∀ a ∈ times, ∀ b ∈ times, (textLe a.String b.String ↔ a.nanos ≤ b.nanos)

instance (times : List Time) : Decidable (OrderedAsInstants times) := by
  unfold OrderedAsInstants
  infer_instance

/-- The sensor reading `bme280.Measurement`, with the four fields the sources use. -/
structure Measurement (F : Type) where
  Timestamp : Time
  Temperature : F
  Humidity : F
  Pressure : Int
deriving DecidableEq, Repr

/-- The element type of `openweather.Measurement.Clouds`; the worker only builds the empty list. -/
abbrev Clouds := Unit

/-- The payload `openweather.Measurement` as `Process` fills it in. The three
fields set to the literal `0` are kept as integers. -/
structure OWMeasurement (F : Type) where
  StationID : String
  Dt : Int
  Temperature : F
  Pressure : Int
  Humidity : F
  WindSpeed : Int
  WindGust : Int
  Rain1h : Int
  Clouds : List Clouds
deriving DecidableEq, Repr

/-- The envelope `queue.Message[T]`: the payload and the attempt count kept by the queue. -/
structure Message (T : Type) where
  Data : T
  Attempts : Nat
deriving DecidableEq, Repr

/-! ## Errors -/

/-- The error `*openweather.HTTPError`: a status code and a message. -/
structure HTTPError where
  StatusCode : Int
  Message : String
deriving DecidableEq, Repr

/-- Go `openweather.NewHTTPError(statusCode, message)`. -/
def NewHTTPError (statusCode : Int) (message : String) : HTTPError :=
  ⟨statusCode, message⟩

/-- Modelled from the spec: the method `IsRetryable` of `openweather.HTTPError`,
whose source is absent. The spec classifies a failure carrying a 5xx status or
429 as retryable, and a 4xx other than 429 as non-retryable. -/
def HTTPError.IsRetryable (e : HTTPError) : Bool :=
  decide ((500 ≤ e.StatusCode ∧ e.StatusCode ≤ 599) ∨ e.StatusCode = 429)

/-- A non-nil Go error value, by dynamic type.
* `foreign text cap`: a value of any other type, given by its `Error()` text and,
  when it has the method, the answer of its `IsRetryable()`;
* `http e`: a `*openweather.HTTPError`;
* `repository err`: a `repository.RepositoryErr` wrapping `err`. -/
inductive GoError where
  | foreign (text : String) (cap : Option Bool)
  | http (e : HTTPError)
  | repository (err : GoError)
deriving DecidableEq, Repr

/-- Go `repository.NewRepositoryErr`. -/
def NewRepositoryErr (err : GoError) : GoError := GoError.repository err

/-- The method `Error()`. The text of an `HTTPError` is produced by the absent
`openweather` package and is the parameter `httpErrorText`; the text of a
`RepositoryErr` is the text of the error it wraps. -/
def GoError.Error (httpErrorText : HTTPError → String) : GoError → String
  | GoError.foreign text _ => text
  | GoError.http e => httpErrorText e
  | GoError.repository err => GoError.Error httpErrorText err

/-- The method `IsRetryable()`, when the dynamic type has it. `RepositoryErr`
answers `false` whatever it wraps. -/
def GoError.IsRetryable : GoError → Option Bool
  | GoError.foreign _ cap => cap
  | GoError.http e => some e.IsRetryable
  | GoError.repository _ => some false

/-- Modelled from the spec: the classification step of the absent queue. An
error is retried when its `IsRetryable()` answers true, and also when it does
not have the method. -/
def classifiedRetryable (e : GoError) : Bool := e.IsRetryable.getD true

/-! ## The delivery worker (`queue_worker.go`) -/

/-- A call made on a collaborator. -/
inductive Call (F Ctx : Type) where
  | SaveMeasurement (measurement : Measurement F)
  | SendMeasurement (ctx : Ctx) (measurement : OWMeasurement F)
deriving DecidableEq, Repr

/-- The worker `OpenWeatherWorker`: the remote client (its `SendMeasurement`), the
store (its `SaveMeasurement`) and the station identifier. -/
structure OpenWeatherWorker (F Ctx W : Type) where
  client : Ctx → OWMeasurement F → W → Option GoError × W
  repository : Measurement F → W → Option GoError × W
  stationID : String

/-- What one run of `Process` leaves behind: the returned error, the world
after the run and the calls made, in order. -/
structure Outcome (F Ctx W : Type) where
  err : Option GoError
  world : W
  calls : List (Call F Ctx)

/-- The payload `Process` builds from the message before calling anything. -/
def OpenWeatherWorker.payload {F Ctx W : Type} (w : OpenWeatherWorker F Ctx W)
    (msg : Message (Measurement F)) : OWMeasurement F where
  StationID := w.stationID
  Dt := msg.Data.Timestamp.Unix
  Temperature := msg.Data.Temperature
  Pressure := msg.Data.Pressure
  Humidity := msg.Data.Humidity
  WindSpeed := 0
  WindGust := 0
  Rain1h := 0
  Clouds := []

/-- Go `OpenWeatherWorker.Process`. -/
def OpenWeatherWorker.Process {F Ctx W : Type} (httpErrorText : HTTPError → String)
    (w : OpenWeatherWorker F Ctx W) (ctx : Ctx) (msg : Message (Measurement F))
    (world : W) : Outcome F Ctx W :=
  let measurement := w.payload msg
  match w.repository msg.Data world with
  | (some err, world1) =>
    ⟨some (NewRepositoryErr err), world1, [Call.SaveMeasurement msg.Data]⟩
  | (none, world1) =>
    match w.client ctx measurement world1 with
    | (some err, world2) =>
      match err with
      | GoError.http httpErr =>
        ⟨some (GoError.http httpErr), world2,
          [Call.SaveMeasurement msg.Data, Call.SendMeasurement ctx measurement]⟩
      | _ =>
        ⟨some (GoError.http (NewHTTPError 500 (err.Error httpErrorText))), world2,
          [Call.SaveMeasurement msg.Data, Call.SendMeasurement ctx measurement]⟩
    | (none, world2) =>
      ⟨none, world2, [Call.SaveMeasurement msg.Data, Call.SendMeasurement ctx measurement]⟩

/-- Whether a recorded call is a call of `SendMeasurement`. -/
def Call.isSend {F Ctx : Type} : Call F Ctx → Bool
  | Call.SendMeasurement _ _ => true
  | Call.SaveMeasurement _ => false

/-- Whether a recorded call is a call of `SaveMeasurement`. -/
def Call.isSave {F Ctx : Type} : Call F Ctx → Bool
  | Call.SaveMeasurement _ => true
  | Call.SendMeasurement _ _ => false

/-! ## The status endpoint (`web/handlers.go`) -/

/-- The integer type `queue.CircuitBreakerState`; `code` is the value `int(...)` converts to. -/
structure CircuitBreakerState where
  code : Int
deriving DecidableEq, Repr

/-- The snapshot `queue.Stats()` returns, with the fields the handler reads. -/
structure QueueStats where
  QueueSize : Int
  RetryQueueSize : Int
  CircuitBreakerState : CircuitBreakerState
  Workers : Int
deriving DecidableEq, Repr

/-- A value stored in the handler's `map[string]any`. -/
inductive JSONValue where
  | int (n : Int)
  | time (t : Time)
  | str (s : String)
deriving DecidableEq, Repr

/-- What a handler sends: the one call it makes on `sendJSONResponse` or
`sendErrorResponse`, with its arguments. A Go map literal is the list of its
entries. -/
inductive Response where
  | sendJSONResponse (data : List (String × JSONValue)) (statusCode : Int)
  | sendErrorResponse (message : String) (statusCode : Int)
deriving DecidableEq, Repr

/-- The request, as far as `handleQueue` reads it. -/
structure Request where
  Method : String
deriving DecidableEq, Repr

/-- The server, as far as `handleQueue` reads it: `queue` is `none` for a nil
queue, and otherwise the snapshot its `Stats()` returns at the time of the call. -/
structure Server where
  queue : Option QueueStats
deriving DecidableEq, Repr

/-- Go `http.MethodGet`. -/
def MethodGet : String := "GET"

/-- Go `http.StatusOK`. -/
def StatusOK : Int := 200

/-- Go `http.StatusMethodNotAllowed`. -/
def StatusMethodNotAllowed : Int := 405

/-- Go `http.StatusServiceUnavailable`. -/
def StatusServiceUnavailable : Int := 503

/-- Go `Server.handleQueue`; `now` is what `time.Now()` returns. -/
def Server.handleQueue (s : Server) (r : Request) (now : Time) : Response :=
  if r.Method ≠ MethodGet then
    Response.sendErrorResponse "Method not allowed" StatusMethodNotAllowed
  else
    match s.queue with
    | none => Response.sendErrorResponse "Queue not available" StatusServiceUnavailable
    | some stats =>
      let response : List (String × JSONValue) :=
        [("queue_size", JSONValue.int stats.QueueSize),
         ("retry_queue_size", JSONValue.int stats.RetryQueueSize),
         ("circuit_breaker_state", JSONValue.int stats.CircuitBreakerState.code),
         ("workers", JSONValue.int stats.Workers),
         ("timestamp", JSONValue.time now)]
      Response.sendJSONResponse response StatusOK

/-! ## The SQLite repository (`repository/sqlite.go`)

The database engine is outside the repository. It is modelled by the meaning
of the four SQL statements the sources run: a database file holds the table
`measurements`, or not yet; rows are kept in insertion order; `ORDER BY` is a
stable sort. The driver binds a `time.Time` as the text of its `Time.String`,
so a row keeps the time that was bound, the engine compares the texts of the
times, and a scan gives back the time parsed from the text. The only engine
failures modelled are a closed handle and a missing table. -/

/-- A row of `measurements`, with the times that were bound, which is also the Go
`MeasurementRecord`. -/
structure MeasurementRecord (F : Type) where
  ID : Int
  Timestamp : Time
  Temperature : F
  Humidity : F
  Pressure : Int
  CreatedAt : Time
deriving DecidableEq, Repr

/-- Go `MeasurementRecord.ToMeasurement`. -/
def MeasurementRecord.ToMeasurement {F : Type} (m : MeasurementRecord F) : Measurement F where
  Timestamp := m.Timestamp
  Temperature := m.Temperature
  Humidity := m.Humidity
  Pressure := m.Pressure

/-- The record a scan of a row gives: the times are parsed back from their texts. -/
def MeasurementRecord.scanned {F : Type} (row : MeasurementRecord F) : MeasurementRecord F :=
  ⟨row.ID, row.Timestamp.scanned, row.Temperature, row.Humidity, row.Pressure,
    row.CreatedAt.scanned⟩

/-- The content of a database file: the rows of `measurements` (`none` while the
table has not been created) and the last row id handed out by `AUTOINCREMENT`. -/
structure Database (F : Type) where
  measurements : Option (List (MeasurementRecord F))
  sequence : Int

/-- The files on disk: the database stored under each path, if the file exists. -/
abbrev FileSystem (F : Type) := String → Option (Database F)

/-- The file system after `path` is written with `d`. -/
def FileSystem.write {F : Type} (fs : FileSystem F) (path : String) (d : Database F) :
    FileSystem F :=
  fun p => if p = path then some d else fs p

/-- The handle `*sql.DB`: its data source name and whether `Close` was called. -/
structure DB where
  dataSourceName : String
  closed : Bool
deriving DecidableEq, Repr

/-- Go `SQLiteRepository`. Values are only built by `NewSQLiteRepository`, which
sets `db` before it returns, so `db` is never nil. -/
structure SQLiteRepository where
  db : DB
  filepath : String
deriving DecidableEq, Repr

/-- The error of `database/sql` on a closed handle. -/
def errClosed : GoError := GoError.foreign "sql: database is closed" none

/-- The error of the engine when `measurements` does not exist. -/
def errNoTable : GoError := GoError.foreign "no such table: measurements" none

/-- Go `fmt.Errorf(text + ": %w", err)`: a new error with the joined text and no
`IsRetryable` method. -/
def wrapf (httpErrorText : HTTPError → String) (text : String) (err : GoError) : GoError :=
  GoError.foreign (text ++ ": " ++ err.Error httpErrorText) none

/-- A connection to the data source: the database in the file, which the engine
creates empty when it is missing. -/
def DB.connect {F : Type} (db : DB) (fs : FileSystem F) : Database F × FileSystem F :=
  match fs db.dataSourceName with
  | some d => (d, fs)
  | none => (⟨none, 0⟩, fs.write db.dataSourceName ⟨none, 0⟩)

/-- The statement of `createTables`: `CREATE TABLE IF NOT EXISTS measurements`
followed by `CREATE INDEX IF NOT EXISTS`, which leaves the rows alone. -/
def DB.execCreate {F : Type} (db : DB) (fs : FileSystem F) : Option GoError × FileSystem F :=
  if db.closed then (some errClosed, fs)
  else
    match db.connect fs with
    | (d, fs1) =>
      match d.measurements with
      | some _ => (none, fs1)
      | none => (none, fs1.write db.dataSourceName ⟨some [], d.sequence⟩)

/-- The statement of `SaveMeasurement`: `INSERT INTO measurements (timestamp,
temperature, humidity, pressure) VALUES (?, ?, ?, ?)`. The new row gets the next
id and `CURRENT_TIMESTAMP`, the engine clock `now` cut to the second. -/
def DB.execInsert {F : Type} (db : DB) (measurement : Measurement F) (now : Time)
    (fs : FileSystem F) : Option GoError × FileSystem F :=
  if db.closed then (some errClosed, fs)
  else
    match db.connect fs with
    | (d, fs1) =>
      match d.measurements with
      | none => (some errNoTable, fs1)
      | some rows =>
        let row : MeasurementRecord F :=
          ⟨d.sequence + 1, measurement.Timestamp, measurement.Temperature,
            measurement.Humidity, measurement.Pressure, Time.ofUnix now.Unix⟩
        (none, fs1.write db.dataSourceName ⟨some (rows ++ [row]), d.sequence + 1⟩)

/-- The rows a `SELECT ... FROM measurements` reads, or the engine error. -/
def DB.queryRows {F : Type} (db : DB) (fs : FileSystem F) :
    Except GoError (List (MeasurementRecord F)) × FileSystem F :=
  if db.closed then (Except.error errClosed, fs)
  else
    match db.connect fs with
    | (d, fs1) =>
      match d.measurements with
      | none => (Except.error errNoTable, fs1)
      | some rows => (Except.ok rows, fs1)

/-- The order of `ORDER BY timestamp ASC`: the order of the stored texts. -/
def timestampAsc {F : Type} (a b : MeasurementRecord F) : Prop :=
  textLe a.Timestamp.String b.Timestamp.String

/-- The order of `ORDER BY timestamp DESC`: the reverse order of the stored texts. -/
def timestampDesc {F : Type} (a b : MeasurementRecord F) : Prop :=
  textLe b.Timestamp.String a.Timestamp.String

instance {F : Type} : DecidableRel (timestampAsc : MeasurementRecord F → _ → Prop) :=
  fun a b => inferInstanceAs (Decidable (textLe a.Timestamp.String b.Timestamp.String))

instance {F : Type} : DecidableRel (timestampDesc : MeasurementRecord F → _ → Prop) :=
  fun a b => inferInstanceAs (Decidable (textLe b.Timestamp.String a.Timestamp.String))

/-- The rows of `WHERE timestamp >= ? AND timestamp <= ? ORDER BY timestamp ASC`:
the bounds are bound as texts too. -/
def selectByTimeRange {F : Type} (rows : List (MeasurementRecord F)) (startTime endTime : Time) :
    List (MeasurementRecord F) :=
  (rows.filter (fun r =>
    decide (textLe startTime.String r.Timestamp.String)
      && decide (textLe r.Timestamp.String endTime.String))).insertionSort
    timestampAsc

/-- The rows of `ORDER BY timestamp DESC LIMIT ?`; a negative limit is no limit. -/
def selectLatest {F : Type} (rows : List (MeasurementRecord F)) (limit : Int) :
    List (MeasurementRecord F) :=
  if limit < 0 then rows.insertionSort timestampDesc
  else (rows.insertionSort timestampDesc).take limit.toNat

/-- Go `SQLiteRepository.createTables`. -/
def SQLiteRepository.createTables {F : Type} (httpErrorText : HTTPError → String)
    (r : SQLiteRepository) (fs : FileSystem F) : Option GoError × FileSystem F :=
  match r.db.execCreate fs with
  | (some err, fs1) => (some (wrapf httpErrorText "failed to create tables" err), fs1)
  | (none, fs1) => (none, fs1)

/-- Go `SQLiteRepository.initialize`, returning the repository with its handle
set. `os.Stat` reports a missing file exactly when the path holds none, and
`sql.Open` only records the data source. -/
def SQLiteRepository.initializeRepository {F : Type} (httpErrorText : HTTPError → String)
    (filepath : String) (fs : FileSystem F) :
    Except GoError SQLiteRepository × FileSystem F :=
  let fileExists : Bool := (fs filepath).isSome
  let r : SQLiteRepository := ⟨⟨filepath, false⟩, filepath⟩
  if !fileExists then
    match r.createTables httpErrorText fs with
    | (some err, fs1) => (Except.error (wrapf httpErrorText "failed to create tables" err), fs1)
    | (none, fs1) => (Except.ok r, fs1)
  else (Except.ok r, fs)

/-- Go `NewSQLiteRepository`. -/
def NewSQLiteRepository {F : Type} (httpErrorText : HTTPError → String)
    (filepath : String) (fs : FileSystem F) :
    Except GoError SQLiteRepository × FileSystem F :=
  let filepath := if filepath = "" then "weather.db" else filepath
  match SQLiteRepository.initializeRepository httpErrorText filepath fs with
  | (Except.error err, fs1) =>
    (Except.error (wrapf httpErrorText "failed to initialize repository" err), fs1)
  | (Except.ok repo, fs1) => (Except.ok repo, fs1)

/-- Go `SQLiteRepository.SaveMeasurement`; `now` is the engine clock. -/
def SQLiteRepository.SaveMeasurement {F : Type} (httpErrorText : HTTPError → String)
    (r : SQLiteRepository) (measurement : Measurement F) (now : Time) (fs : FileSystem F) :
    Option GoError × FileSystem F :=
  match r.db.execInsert measurement now fs with
  | (some err, fs1) => (some (wrapf httpErrorText "failed to save measurement" err), fs1)
  | (none, fs1) => (none, fs1)

/-- Go `SQLiteRepository.GetMeasurementsByTimeRange`. -/
def SQLiteRepository.GetMeasurementsByTimeRange {F : Type} (httpErrorText : HTTPError → String)
    (r : SQLiteRepository) (startTime endTime : Time) (fs : FileSystem F) :
    Except GoError (List (MeasurementRecord F)) × FileSystem F :=
  match r.db.queryRows fs with
  | (Except.error err, fs1) =>
    (Except.error (wrapf httpErrorText "failed to query measurements" err), fs1)
  | (Except.ok rows, fs1) =>
    (Except.ok ((selectByTimeRange rows startTime endTime).map MeasurementRecord.scanned), fs1)

/-- Go `SQLiteRepository.GetLatestMeasurements`. -/
def SQLiteRepository.GetLatestMeasurements {F : Type} (httpErrorText : HTTPError → String)
    (r : SQLiteRepository) (limit : Int) (fs : FileSystem F) :
    Except GoError (List (MeasurementRecord F)) × FileSystem F :=
  match r.db.queryRows fs with
  | (Except.error err, fs1) =>
    (Except.error (wrapf httpErrorText "failed to query latest measurements" err), fs1)
  | (Except.ok rows, fs1) =>
    (Except.ok ((selectLatest rows limit).map MeasurementRecord.scanned), fs1)

/-- Go `SQLiteRepository.GetMeasurementCount`: `SELECT COUNT(*) FROM measurements`. -/
def SQLiteRepository.GetMeasurementCount {F : Type} (httpErrorText : HTTPError → String)
    (r : SQLiteRepository) (fs : FileSystem F) : Except GoError Int × FileSystem F :=
  match (r.db.queryRows fs : Except GoError (List (MeasurementRecord F)) × FileSystem F) with
  | (Except.error err, fs1) =>
    (Except.error (wrapf httpErrorText "failed to get measurement count" err), fs1)
  | (Except.ok rows, fs1) => (Except.ok (rows.length : Int), fs1)

/-- Go `SQLiteRepository.Close`: closes the handle. -/
def SQLiteRepository.Close (r : SQLiteRepository) : Option GoError × SQLiteRepository :=
  (none, ⟨⟨r.db.dataSourceName, true⟩, r.filepath⟩)

/-! ## Aggregation (`weather/aggregate.go`) -/

/-- The operations of `float64` and of package `math` that the aggregation uses. -/
class Float64Ops (F : Type) where
  zero : F
  ofInt : Int → F
  add : F → F → F
  mul : F → F → F
  div : F → F → F
  lt : F → F → Bool
  eq : F → F → Bool
  pow : F → F → F
  round : F → F

/-- Go `AggregationKind`, an `int`. -/
abbrev AggregationKind := Int

/-- Go constant `Minute`. -/
def Minute : AggregationKind := 0

/-- Go constant `Hour`. -/
def Hour : AggregationKind := 1

/-- Go constant `Day`. -/
def Day : AggregationKind := 2

/-- Go `AggregationKind.String`. -/
def AggregationKind.String (a : AggregationKind) : String :=
  if a = Minute then "minute"
  else if a = Hour then "hour"
  else if a = Day then "day"
  else "unknown"

/-- Go `Temperature`; a nil pointer is `none`. -/
structure Temperature (F : Type) where
  Max : Option F
  Min : Option F
  Average : Option F
deriving DecidableEq, Repr

/-- Go `Humidity`; a nil pointer is `none`. -/
structure Humidity (F : Type) where
  Average : Option F
deriving DecidableEq, Repr

/-- Go `Pressure`; a nil pointer is `none`. -/
structure Pressure (F : Type) where
  Min : Option Int
  Max : Option Int
  Average : Option F
deriving DecidableEq, Repr

/-- Go `AggregateMeasurement`. -/
structure AggregateMeasurement (F : Type) where
  «Type» : String
  Date : Int
  Temp : Temperature F
  Humidity : Humidity F
  Pressure : Pressure F
deriving DecidableEq, Repr

/-- What `Location.lookup` answers for an instant: the offset east of UTC in
seconds and the span of instants, from `start` up to `stop`, the offset holds for. -/
structure Zone where
  offset : Int
  start : Int
  stop : Int
deriving DecidableEq, Repr

/-- A `time.Location`: the zone in force at each instant (Unix seconds). -/
structure Location where
  lookup : Int → Zone

/-- The location `time.UTC`. -/
def Location.UTC : Location := ⟨fun _ => ⟨0, 0, 0⟩⟩

/-- The wall clock of an instant in a location, in seconds: the number the
calendar fields `Year`, `Month`, `Day`, `Hour`, `Minute` and `Second` are read from. -/
def Location.wall (loc : Location) (unix : Int) : Int := unix + (loc.lookup unix).offset

/-- Go `time.Date(...).Unix()` for calendar fields that spell the wall clock
`wall`: the wall clock is first taken as UTC and then moved by the offset of the
zone found there, looked up again when the moved instant leaves that zone. -/
def Location.Date (loc : Location) (wall : Int) : Int :=
  let z := loc.lookup wall
  if z.offset ≠ 0 then
    let utc := wall - z.offset
    let offset := if utc < z.start ∨ utc ≥ z.stop then (loc.lookup utc).offset else z.offset
    wall - offset
  else wall

/-- The key `AggregateMeasurements` groups a record under: the start of the
minute, hour or day of its wall clock, and `0` for any other kind. -/
def groupKey (loc : Location) (kind : AggregationKind) (timestamp : Time) : Int :=
  let t := Time.ofUnix timestamp.Unix
  let wall := loc.wall t.Unix
  if kind = Minute then loc.Date (wall - wall % 60)
  else if kind = Hour then loc.Date (wall - wall % 3600)
  else if kind = Day then loc.Date (wall - wall % 86400)
  else 0

/-- Go `grouped[key] = append(grouped[key], measurement)` on a map kept as the
list of its entries, a new key going last. -/
def appendGroup {F : Type} (key : Int) (measurement : MeasurementRecord F) :
    List (Int × List (MeasurementRecord F)) → List (Int × List (MeasurementRecord F))
  | [] => [(key, [measurement])]
  | (k, group) :: rest =>
    if k = key then (k, group ++ [measurement]) :: rest
    else (k, group) :: appendGroup key measurement rest

/-- The map `grouped` after the first loop of `AggregateMeasurements`. -/
def groupMeasurements {F : Type} (loc : Location) (kind : AggregationKind)
    (measurements : List (MeasurementRecord F)) : List (Int × List (MeasurementRecord F)) :=
  measurements.foldl (fun grouped m => appendGroup (groupKey loc kind m.Timestamp) m grouped) []

/-- Go `roundToDecimal`. -/
def roundToDecimal {F : Type} [Float64Ops F] (value : F) (places : Int) : F :=
  if Float64Ops.eq value (Float64Ops.zero : F) then Float64Ops.zero
  else
    let multiplier : F := Float64Ops.pow (Float64Ops.ofInt 10) (Float64Ops.ofInt places)
    Float64Ops.div (Float64Ops.round (Float64Ops.mul value multiplier)) multiplier

/-- The local variables of `calculateAggregates` that its loop updates. -/
structure Sums (F : Type) where
  tempSum : F
  tempMin : F
  tempMax : F
  humSum : F
  pressSum : F
  pressMin : Int
  pressMax : Int
  count : Int

/-- One turn of the loop of `calculateAggregates`. -/
def Sums.step {F : Type} [Float64Ops F] (s : Sums F) (m : MeasurementRecord F) : Sums F where
  tempSum := Float64Ops.add s.tempSum m.Temperature
  humSum := Float64Ops.add s.humSum m.Humidity
  pressSum := Float64Ops.add s.pressSum (Float64Ops.ofInt m.Pressure)
  tempMin := if Float64Ops.lt m.Temperature s.tempMin then m.Temperature else s.tempMin
  tempMax := if Float64Ops.lt s.tempMax m.Temperature then m.Temperature else s.tempMax
  pressMin := if m.Pressure < s.pressMin then m.Pressure else s.pressMin
  pressMax := if m.Pressure > s.pressMax then m.Pressure else s.pressMax
  count := s.count + 1

/-- Go `calculateAggregates`; `none` is the run-time panic of `measurements[0]`
on an empty slice. -/
def calculateAggregates {F : Type} [Float64Ops F] (measurements : List (MeasurementRecord F))
    (date : Int) (kind : AggregationKind) : Option (AggregateMeasurement F) :=
  match measurements with
  | [] => none
  | first :: _ =>
    let init : Sums F :=
      ⟨Float64Ops.zero, first.Temperature, first.Temperature, Float64Ops.zero, Float64Ops.zero,
        first.Pressure, first.Pressure, 0⟩
    let s := measurements.foldl Sums.step init
    let tempMax := roundToDecimal s.tempMax 1
    let tempMin := roundToDecimal s.tempMin 1
    let tempAvg := roundToDecimal (Float64Ops.div s.tempSum (Float64Ops.ofInt s.count)) 1
    let humAvg := roundToDecimal (Float64Ops.div s.humSum (Float64Ops.ofInt s.count)) 1
    let pressAvg := roundToDecimal (Float64Ops.div s.pressSum (Float64Ops.ofInt s.count)) 1
    some
      { «Type» := AggregationKind.String kind
        Date := date
        Temp := ⟨some tempMax, some tempMin, some tempAvg⟩
        Humidity := ⟨some humAvg⟩
        Pressure := ⟨some s.pressMin, some s.pressMax, some pressAvg⟩ }

/-- The order `sortAggregateMeasurementByDateAsc` sorts by. -/
def dateAsc {F : Type} (a b : AggregateMeasurement F) : Prop := a.Date ≤ b.Date

instance {F : Type} : DecidableRel (dateAsc : AggregateMeasurement F → _ → Prop) :=
  fun a b => inferInstanceAs (Decidable (a.Date ≤ b.Date))

/-- Go `sortAggregateMeasurementByDateAsc`: `slices.SortFunc` by `Date`, here an
insertion sort. -/
def sortAggregateMeasurementByDateAsc {F : Type} (measurements : List (AggregateMeasurement F)) :
    List (AggregateMeasurement F) :=
  measurements.insertionSort dateAsc

/-- An order in which `range` may visit the entries of a map: any rearrangement
of them. -/
def MapRange {F : Type}
    (range : List (Int × List (MeasurementRecord F)) → List (Int × List (MeasurementRecord F))) :
    Prop :=
  ∀ entries, (range entries).Perm entries

/-- Go `AggregateMeasurements`. The location `loc` is the process's `time.Local`,
`range` is the order in which the run time visits the entries of `grouped`, and
`none` is a panic of `calculateAggregates`. -/
def AggregateMeasurements {F : Type} [Float64Ops F] (loc : Location)
    (range : List (Int × List (MeasurementRecord F)) → List (Int × List (MeasurementRecord F)))
    (measurements : List (MeasurementRecord F)) (kind : AggregationKind) :
    Option (List (AggregateMeasurement F)) :=
  if measurements.length = 0 then some []
  else
    let grouped := groupMeasurements loc kind measurements
    match (range grouped).mapM (fun entry => calculateAggregates entry.2 entry.1 kind) with
    | none => none
    | some results => some (sortAggregateMeasurementByDateAsc results)

/-- Following the claim's words: the Unix time of the start of the minute, hour
or day, `period` seconds long, that contains the instant `unix` in a location.
It is the instant less the seconds its wall clock has run since the boundary;
under UTC this is `unix - unix mod period`. -/
def bucketStartSpec (loc : Location) (period : Int) (unix : Int) : Int :=
  unix - loc.wall unix % period

/-- No change of offset stands between the instant `unix` and the start of the
`period` that contains it: the zone `time.Date` first looks up, at the wall
clock of the start read as UTC, has the offset in force at `unix`, and the
start lies in the span of that zone or has that offset itself. -/
def SameOffsetAtBucketStart (loc : Location) (period : Int) (unix : Int) : Prop :=
  (loc.lookup (loc.wall unix - loc.wall unix % period)).offset = (loc.lookup unix).offset
    ∧ (((loc.lookup (loc.wall unix - loc.wall unix % period)).start
          ≤ bucketStartSpec loc period unix
        ∧ bucketStartSpec loc period unix
          < (loc.lookup (loc.wall unix - loc.wall unix % period)).stop)
      ∨ (loc.lookup (bucketStartSpec loc period unix)).offset = (loc.lookup unix).offset)

instance (loc : Location) (period unix : Int) :
    Decidable (SameOffsetAtBucketStart loc period unix) := by
  unfold SameOffsetAtBucketStart
  infer_instance

/-! ## Runs of several calls -/

/-- Calling `SaveMeasurement` for each measurement in turn, each with the engine
clock it is paired with: the errors returned, in order, and the files left. -/
def SQLiteRepository.saveEach {F : Type} (httpErrorText : HTTPError → String)
    (r : SQLiteRepository) :
    List (Measurement F × Time) → FileSystem F → List (Option GoError) × FileSystem F
  | [], fs => ([], fs)
  | (measurement, now) :: rest, fs =>
    match r.SaveMeasurement httpErrorText measurement now fs with
    | (err, fs1) =>
      match SQLiteRepository.saveEach httpErrorText r rest fs1 with
      | (errs, fs2) => (err :: errs, fs2)

/-- The worker whose store is the SQLite repository `repo`. The world is the
file system together with the state `R` of everything else; `clock` reads the
engine clock from it and `send` is the remote client. -/
def sqliteWorker {F Ctx R : Type} (httpErrorText : HTTPError → String) (repo : SQLiteRepository)
    (clock : R → Time) (send : Ctx → OWMeasurement F → R → Option GoError × R)
    (stationID : String) : OpenWeatherWorker F Ctx (FileSystem F × R) where
  client := fun ctx measurement world =>
    match send ctx measurement world.2 with
    | (err, remote) => (err, (world.1, remote))
  repository := fun measurement world =>
    match repo.SaveMeasurement httpErrorText measurement (clock world.2) world.1 with
    | (err, fs) => (err, (fs, world.2))
  stationID := stationID

/-- Running `Process` on each message in turn, each on the world the one before
left: the errors returned, in order, and the final world. -/
def OpenWeatherWorker.processEach {F Ctx W : Type} (httpErrorText : HTTPError → String)
    (w : OpenWeatherWorker F Ctx W) :
    List (Ctx × Message (Measurement F)) → W → List (Option GoError) × W
  | [], world => ([], world)
  | (ctx, msg) :: rest, world =>
    match OpenWeatherWorker.processEach httpErrorText w rest
        (w.Process httpErrorText ctx msg world).world with
    | (errs, final) => ((w.Process httpErrorText ctx msg world).err :: errs, final)

/-! ## Properties of the orders -/

instance {F : Type} : IsTotal (AggregateMeasurement F) dateAsc :=
  ⟨fun a b => Int.le_total a.Date b.Date⟩

instance {F : Type} : IsTrans (AggregateMeasurement F) dateAsc :=
  ⟨fun _ _ _ hab hbc => Int.le_trans hab hbc⟩

/-! ## Sample values -/

/-- The worker used to exercise the theorems: the store fails on a negative
pressure, and the remote answers with the status found in the world, where `0`
is success and a negative number a failure that is not an HTTP error. -/
def sampleWorker : OpenWeatherWorker Int Unit Int where
  client := fun _ _ status =>
    if status = 0 then (none, status)
    else if status < 0 then (some (GoError.foreign "connection refused" none), status)
    else (some (GoError.http ⟨status, "remote failure"⟩), status)
  repository := fun m status =>
    if m.Pressure < 0 then (some (GoError.foreign "disk full" none), status) else (none, status)
  stationID := "station"

/-- The text used for an `HTTPError` where a concrete one is needed. -/
def sampleHTTPErrorText (e : HTTPError) : String := e.Message

/-- Integer arithmetic standing in for `float64` where concrete values are run. -/
instance sampleFloat64Ops : Float64Ops Int where
  zero := 0
  ofInt := id
  add := fun a b => a + b
  mul := fun a b => a * b
  div := fun a b => a / b
  lt := fun a b => decide (a < b)
  eq := fun a b => decide (a = b)
  pow := fun a b => a ^ b.toNat
  round := id

/-- Three records, two of them in the same minute. -/
def sampleRecords : List (MeasurementRecord Int) :=
  [⟨1, (Time.utc 125000000000), 21, 50, 1013, (Time.utc 0)⟩,
   ⟨2, (Time.utc 10000000000), 19, 55, 1009, (Time.utc 0)⟩,
   ⟨3, (Time.utc 130000000000), 23, 52, 1015, (Time.utc 0)⟩]

/-- The file system with no file at all. -/
def noFiles : FileSystem Int := fun _ => none

/-- The repository the test opens on a path with no file. -/
def sampleRepository : SQLiteRepository := ⟨⟨"test_weather.db", false⟩, "test_weather.db"⟩

/-- The files `NewSQLiteRepository` leaves when it creates the sample repository. -/
def sampleFiles : FileSystem Int :=
  (NewSQLiteRepository sampleHTTPErrorText "test_weather.db" noFiles).2

/-- One measurement to save, with the engine clock of its save. -/
def sampleSaves : List (Measurement Int × Time) :=
  [(⟨(Time.utc 1000), 25, 60, 101325⟩, (Time.utc 5000000000))]

/-- Four stored rows, out of timestamp order, two of them with the same timestamp. -/
def sampleTable : List (MeasurementRecord Int) :=
  [⟨1, (Time.utc 300), 21, 50, 1013, (Time.utc 0)⟩, ⟨2, (Time.utc 100), 19, 55, 1009, (Time.utc 0)⟩,
   ⟨3, (Time.utc 400), 23, 52, 1015, (Time.utc 0)⟩, ⟨4, (Time.utc 300), 22, 51, 1014, (Time.utc 0)⟩]

/-- A file system whose every path holds a database with the sample rows. -/
def sampleStore : FileSystem Int := fun _ => some ⟨some sampleTable, 4⟩

/-- A remote client over a countdown: it fails with status 503 while the count
is positive and succeeds at zero. -/
def sampleSend (_ctx : Unit) (_measurement : OWMeasurement Int) (remaining : Nat) :
    Option GoError × Nat :=
  match remaining with
  | 0 => (none, 0)
  | n + 1 => (some (GoError.http ⟨503, "unavailable"⟩), n)

/-- The zone Europe/Berlin from 2023-03-26 to 2024-03-31: summer time, two hours
east of UTC, until 2023-10-29 01:00:00 UTC (Unix 1698541200), and one hour east
from then on. -/
def berlin : Location :=
  ⟨fun unix =>
    if unix < 1698541200 then ⟨7200, 1679792400, 1698541200⟩
    else ⟨3600, 1698541200, 1711846800⟩⟩

/-- The time 2023-10-29 00:30:00 UTC in Europe/Berlin: 02:30 summer time. -/
def berlinSummer : Time := ⟨1698539400000000000, 7200, "CEST", none⟩

/-- The time 2023-10-29 01:30:00 UTC in Europe/Berlin: 02:30 again, after the
clocks went back. -/
def berlinWinter : Time := ⟨1698543000000000000, 3600, "CET", none⟩

/-- Two records of 2023-10-29, at 00:30:00 UTC (02:30 summer time) and at
01:30:00 UTC (02:30 again, after the clocks went back). -/
def berlinRecords : List (MeasurementRecord Int) :=
  [⟨1, berlinSummer, 12, 80, 1010, (Time.utc 0)⟩, ⟨2, berlinWinter, 11, 82, 1011, (Time.utc 0)⟩]

/-- A file system whose every path holds a database with the two Berlin records. -/
def berlinStore : FileSystem Int := fun _ => some ⟨some berlinRecords, 2⟩

/-- One measurement taken at 2023-11-14 22:13:20 UTC, with the engine clock of
its save. -/
def utcSaves : List (Measurement Int × Time) :=
  [(⟨(Time.utc 1700000000000000000), 25, 60, 101325⟩, (Time.utc 1700000000000000000))]

/-- The time one hour before the measurement of `utcSaves`, in a location five
hours west of UTC: 2023-11-14 16:13:20 EST. -/
def easternStart : Time := ⟨1699996400000000000, -18000, "EST", none⟩

/-- The time one hour after the measurement of `utcSaves`, in the same location:
2023-11-14 18:13:20 EST. -/
def easternEnd : Time := ⟨1700003600000000000, -18000, "EST", none⟩

/-- The time of the measurement of `utcSaves` as `time.Now()` gives it, with a
monotonic clock reading of one and a half seconds. -/
def utcNow : Time := ⟨1700000000000000000, 0, "UTC", some 1500000000⟩

/-! ## Theorems: the delivery worker -/

/-- C1: when the store's `SaveMeasurement` returns an error, `Process` returns an
error that has the method `IsRetryable()` and answers false, whose `Error()`
text is the text of the store's error, and the only call made is the one
`SaveMeasurement`: `SendMeasurement` is not called. -/
theorem process_store_failure {F Ctx W : Type} (httpErrorText : HTTPError → String)
    (w : OpenWeatherWorker F Ctx W) (ctx : Ctx) (msg : Message (Measurement F)) (world world1 : W)
    (storeErr : GoError) (hsave : w.repository msg.Data world = (some storeErr, world1)) :
    ∃ e, (w.Process httpErrorText ctx msg world).err = some e
      ∧ e.IsRetryable = some false
      ∧ e.Error httpErrorText = storeErr.Error httpErrorText
      ∧ (w.Process httpErrorText ctx msg world).calls = [Call.SaveMeasurement msg.Data]
      ∧ (∀ c ∈ (w.Process httpErrorText ctx msg world).calls, c.isSend = false)
      ∧ (w.Process httpErrorText ctx msg world).world = world1 := by
  refine ⟨NewRepositoryErr storeErr, ?_, rfl, rfl, ?_, ?_, ?_⟩ <;>
    simp [OpenWeatherWorker.Process, hsave, Call.isSend]

/-- C1 at a message the sample store rejects. -/
theorem process_store_failure_witness :
    ∃ e, (sampleWorker.Process sampleHTTPErrorText () ⟨⟨(Time.utc 0), 20, 50, -1⟩, 0⟩ 503).err = some e
      ∧ e.IsRetryable = some false
      ∧ e.Error sampleHTTPErrorText
          = (GoError.foreign "disk full" none).Error sampleHTTPErrorText
      ∧ (sampleWorker.Process sampleHTTPErrorText () ⟨⟨(Time.utc 0), 20, 50, -1⟩, 0⟩ 503).calls
          = [Call.SaveMeasurement ⟨(Time.utc 0), 20, 50, -1⟩]
      ∧ (∀ c ∈ (sampleWorker.Process sampleHTTPErrorText () ⟨⟨(Time.utc 0), 20, 50, -1⟩, 0⟩ 503).calls,
          c.isSend = false)
      ∧ (sampleWorker.Process sampleHTTPErrorText () ⟨⟨(Time.utc 0), 20, 50, -1⟩, 0⟩ 503).world = 503 :=
  process_store_failure sampleHTTPErrorText sampleWorker () ⟨⟨(Time.utc 0), 20, 50, -1⟩, 0⟩ 503 503
    (GoError.foreign "disk full" none) (by decide)

/-- C2: `Process` calls `SaveMeasurement` first, on the message's data; it calls
`SendMeasurement`, once and after the save, exactly when the save returned no
error, on the world the save left; and it returns no error exactly when both
calls returned no error. -/
theorem process_save_then_send {F Ctx W : Type} (httpErrorText : HTTPError → String)
    (w : OpenWeatherWorker F Ctx W) (ctx : Ctx) (msg : Message (Measurement F)) (world : W) :
    (w.Process httpErrorText ctx msg world).calls.head? = some (Call.SaveMeasurement msg.Data)
      ∧ ((w.repository msg.Data world).1 ≠ none →
          (w.Process httpErrorText ctx msg world).calls = [Call.SaveMeasurement msg.Data]
          ∧ (w.Process httpErrorText ctx msg world).world = (w.repository msg.Data world).2)
      ∧ ((w.repository msg.Data world).1 = none →
          (w.Process httpErrorText ctx msg world).calls
            = [Call.SaveMeasurement msg.Data, Call.SendMeasurement ctx (w.payload msg)]
          ∧ (w.Process httpErrorText ctx msg world).world
            = (w.client ctx (w.payload msg) (w.repository msg.Data world).2).2)
      ∧ ((∃ c ∈ (w.Process httpErrorText ctx msg world).calls, c.isSend = true)
          ↔ (w.repository msg.Data world).1 = none)
      ∧ ((w.Process httpErrorText ctx msg world).err = none
          ↔ (w.repository msg.Data world).1 = none
            ∧ (w.client ctx (w.payload msg) (w.repository msg.Data world).2).1 = none) := by
  unfold OpenWeatherWorker.Process
  rcases hs : w.repository msg.Data world with ⟨_ | e1, w1⟩
  · rcases hc : w.client ctx (w.payload msg) w1 with ⟨_ | e2, w2⟩
    · simp [hc, Call.isSend]
    · cases e2 <;> simp [hc, Call.isSend]
  · simp [Call.isSend]

/-- C3: when the save succeeded and `SendMeasurement` failed, `Process` returns an
`HTTPError`. If the failure is an `HTTPError`, it is returned as it is, status
and message unchanged, so that the queue classifies it as retryable for a 5xx
status and for 429, and as non-retryable for a 4xx other than 429. If the
failure is not an `HTTPError`, the returned one has status 500 and the failure's
text as its message, and is classified retryable. -/
theorem process_send_failure {F Ctx W : Type} (httpErrorText : HTTPError → String)
    (w : OpenWeatherWorker F Ctx W) (ctx : Ctx) (msg : Message (Measurement F))
    (world world1 world2 : W) (sendErr : GoError)
    (hsave : w.repository msg.Data world = (none, world1))
    (hsend : w.client ctx (w.payload msg) world1 = (some sendErr, world2)) :
    ∃ e : HTTPError, (w.Process httpErrorText ctx msg world).err = some (GoError.http e)
      ∧ (∀ h : HTTPError, sendErr = GoError.http h →
          e = h
          ∧ ((500 ≤ h.StatusCode ∧ h.StatusCode ≤ 599) ∨ h.StatusCode = 429 →
              classifiedRetryable (GoError.http e) = true)
          ∧ (400 ≤ h.StatusCode ∧ h.StatusCode ≤ 499 ∧ h.StatusCode ≠ 429 →
              classifiedRetryable (GoError.http e) = false))
      ∧ ((∀ h : HTTPError, sendErr ≠ GoError.http h) →
          e = ⟨500, sendErr.Error httpErrorText⟩
          ∧ classifiedRetryable (GoError.http e) = true) := by
  cases sendErr with
  | http h =>
    refine ⟨h, ?_, ?_, ?_⟩
    · simp [OpenWeatherWorker.Process, hsave, hsend]
    · intro h1 h1eq
      cases h1eq
      refine ⟨rfl, ?_, ?_⟩
      · intro hs
        simp [classifiedRetryable, GoError.IsRetryable, HTTPError.IsRetryable, hs]
      · intro hs
        simp only [classifiedRetryable, GoError.IsRetryable, HTTPError.IsRetryable,
          Option.getD_some, decide_eq_false_iff_not]
        omega
    · intro hne
      exact absurd rfl (hne h)
  | foreign text cap =>
    refine ⟨⟨500, (GoError.foreign text cap).Error httpErrorText⟩, ?_, ?_, ?_⟩
    · simp [OpenWeatherWorker.Process, hsave, hsend, NewHTTPError]
    · intro h1 h1eq
      cases h1eq
    · intro _
      exact ⟨rfl, by simp [classifiedRetryable, GoError.IsRetryable, HTTPError.IsRetryable]⟩
  | repository inner =>
    refine ⟨⟨500, (GoError.repository inner).Error httpErrorText⟩, ?_, ?_, ?_⟩
    · simp [OpenWeatherWorker.Process, hsave, hsend, NewHTTPError]
    · intro h1 h1eq
      cases h1eq
    · intro _
      exact ⟨rfl, by simp [classifiedRetryable, GoError.IsRetryable, HTTPError.IsRetryable]⟩

/-- C3 at a message the sample store accepts while the remote answers 404. -/
theorem process_send_failure_witness :
    ∃ e : HTTPError,
      (sampleWorker.Process sampleHTTPErrorText () ⟨⟨(Time.utc 0), 20, 50, 1013⟩, 2⟩ 404).err
        = some (GoError.http e)
      ∧ (∀ h : HTTPError, GoError.http ⟨404, "remote failure"⟩ = GoError.http h →
          e = h
          ∧ ((500 ≤ h.StatusCode ∧ h.StatusCode ≤ 599) ∨ h.StatusCode = 429 →
              classifiedRetryable (GoError.http e) = true)
          ∧ (400 ≤ h.StatusCode ∧ h.StatusCode ≤ 499 ∧ h.StatusCode ≠ 429 →
              classifiedRetryable (GoError.http e) = false))
      ∧ ((∀ h : HTTPError, GoError.http ⟨404, "remote failure"⟩ ≠ GoError.http h) →
          e = ⟨500, (GoError.http ⟨404, "remote failure"⟩).Error sampleHTTPErrorText⟩
          ∧ classifiedRetryable (GoError.http e) = true) :=
  process_send_failure sampleHTTPErrorText sampleWorker () ⟨⟨(Time.utc 0), 20, 50, 1013⟩, 2⟩ 404 404 404
    (GoError.http ⟨404, "remote failure"⟩) (by decide) (by decide)

/-! ## Theorems: the status endpoint -/

/-- C4: for every snapshot the queue returns, a GET request on a server with a
queue is answered with status 200 and an object whose entries `queue_size`,
`retry_queue_size`, `circuit_breaker_state` and `workers` are the snapshot's
`QueueSize`, `RetryQueueSize`, `int(CircuitBreakerState)` and `Workers`. -/
theorem handleQueue_renders_snapshot (stats : QueueStats) (r : Request) (now : Time)
    (hget : r.Method = MethodGet) :
    ∃ data, Server.handleQueue ⟨some stats⟩ r now = Response.sendJSONResponse data 200
      ∧ data.lookup "queue_size" = some (JSONValue.int stats.QueueSize)
      ∧ data.lookup "retry_queue_size" = some (JSONValue.int stats.RetryQueueSize)
      ∧ data.lookup "circuit_breaker_state" = some (JSONValue.int stats.CircuitBreakerState.code)
      ∧ data.lookup "workers" = some (JSONValue.int stats.Workers) := by
  refine ⟨[("queue_size", JSONValue.int stats.QueueSize),
      ("retry_queue_size", JSONValue.int stats.RetryQueueSize),
      ("circuit_breaker_state", JSONValue.int stats.CircuitBreakerState.code),
      ("workers", JSONValue.int stats.Workers),
      ("timestamp", JSONValue.time now)], ?_, ?_, ?_, ?_, ?_⟩
  · simp only [Server.handleQueue, hget, ne_eq, not_true_eq_false, if_false, StatusOK]
  all_goals simp [List.lookup]

/-- C4 at a snapshot with an open breaker. -/
theorem handleQueue_renders_snapshot_witness :
    ∃ data, Server.handleQueue ⟨some ⟨3, 1, ⟨1⟩, 4⟩⟩ ⟨"GET"⟩ (Time.utc 7)
        = Response.sendJSONResponse data 200
      ∧ data.lookup "queue_size" = some (JSONValue.int 3)
      ∧ data.lookup "retry_queue_size" = some (JSONValue.int 1)
      ∧ data.lookup "circuit_breaker_state" = some (JSONValue.int 1)
      ∧ data.lookup "workers" = some (JSONValue.int 4) :=
  handleQueue_renders_snapshot ⟨3, 1, ⟨1⟩, 4⟩ ⟨"GET"⟩ (Time.utc 7) rfl

/-! ## Theorems: aggregation -/

theorem appendGroup_keys {F : Type} (key : Int) (m : MeasurementRecord F)
    (grouped : List (Int × List (MeasurementRecord F))) :
    (appendGroup key m grouped).map Prod.fst
      = if key ∈ grouped.map Prod.fst then grouped.map Prod.fst
        else grouped.map Prod.fst ++ [key] := by
  induction grouped with
  | nil => simp [appendGroup]
  | cons e rest ih =>
    obtain ⟨k, group⟩ := e
    by_cases hk : k = key
    · simp [appendGroup, hk]
    · have hk2 : ¬ key = k := fun h => hk h.symm
      by_cases hmem : key ∈ rest.map Prod.fst
      · simp only [appendGroup, hk, if_false, List.map_cons, ih, hmem, if_true,
          List.mem_cons, or_true]
      · simp only [appendGroup, hk, if_false, List.map_cons, ih, hmem, List.mem_cons, hk2,
          or_self, List.cons_append]

theorem appendGroup_nodup {F : Type} (key : Int) (m : MeasurementRecord F)
    (grouped : List (Int × List (MeasurementRecord F)))
    (h : (grouped.map Prod.fst).Nodup) : ((appendGroup key m grouped).map Prod.fst).Nodup := by
  rw [appendGroup_keys]
  by_cases hmem : key ∈ grouped.map Prod.fst
  · simpa [hmem] using h
  · rw [if_neg hmem]
    exact List.Nodup.append h (List.nodup_singleton key) (by
      intro a ha hb
      have : a = key := by simpa using hb
      exact hmem (this ▸ ha))

theorem appendGroup_nonempty {F : Type} (key : Int) (m : MeasurementRecord F)
    (grouped : List (Int × List (MeasurementRecord F)))
    (h : ∀ e ∈ grouped, e.2 ≠ []) : ∀ e ∈ appendGroup key m grouped, e.2 ≠ [] := by
  induction grouped with
  | nil => intro e he; simp [appendGroup] at he; simp [he]
  | cons e0 rest ih =>
    obtain ⟨k, group⟩ := e0
    intro e he
    by_cases hk : k = key
    · simp only [appendGroup, hk, if_true, List.mem_cons] at he
      rcases he with he | he
      · simp [he]
      · exact h e (List.mem_cons_of_mem _ he)
    · simp only [appendGroup, hk, if_false, List.mem_cons] at he
      rcases he with he | he
      · exact h e (by simp [he])
      · exact ih (fun x hx => h x (List.mem_cons_of_mem _ hx)) e he

theorem foldl_appendGroup_invariant {F : Type} (key : MeasurementRecord F → Int)
    (measurements : List (MeasurementRecord F)) (acc : List (Int × List (MeasurementRecord F)))
    (hnd : (acc.map Prod.fst).Nodup) (hne : ∀ e ∈ acc, e.2 ≠ []) :
    ((measurements.foldl (fun grouped m => appendGroup (key m) m grouped) acc).map Prod.fst).Nodup
      ∧ ∀ e ∈ measurements.foldl (fun grouped m => appendGroup (key m) m grouped) acc,
          e.2 ≠ [] := by
  induction measurements generalizing acc with
  | nil => exact ⟨hnd, hne⟩
  | cons m rest ih =>
    simp only [List.foldl_cons]
    exact ih _ (appendGroup_nodup _ _ _ hnd) (appendGroup_nonempty _ _ _ hne)

theorem groupMeasurements_invariant {F : Type} (loc : Location) (kind : AggregationKind)
    (measurements : List (MeasurementRecord F)) :
    ((groupMeasurements loc kind measurements).map Prod.fst).Nodup
      ∧ ∀ e ∈ groupMeasurements loc kind measurements, e.2 ≠ [] :=
  foldl_appendGroup_invariant (fun m => groupKey loc kind m.Timestamp) measurements []
    List.nodup_nil (by simp)

theorem calculateAggregates_some {F : Type} [Float64Ops F]
    (group : List (MeasurementRecord F)) (date : Int) (kind : AggregationKind)
    (h : group ≠ []) :
    ∃ a, calculateAggregates group date kind = some a ∧ a.Date = date
      ∧ a.«Type» = AggregationKind.String kind := by
  cases group with
  | nil => exact absurd rfl h
  | cons first rest => exact ⟨_, rfl, rfl, rfl⟩

theorem mapM_calculateAggregates {F : Type} [Float64Ops F] (kind : AggregationKind)
    (entries : List (Int × List (MeasurementRecord F))) (hne : ∀ e ∈ entries, e.2 ≠ []) :
    entries.mapM (fun entry => calculateAggregates entry.2 entry.1 kind)
        = some (entries.filterMap (fun entry => calculateAggregates entry.2 entry.1 kind))
      ∧ (entries.filterMap (fun entry => calculateAggregates entry.2 entry.1 kind)).map
          (fun a => a.Date) = entries.map Prod.fst := by
  induction entries with
  | nil => exact ⟨rfl, rfl⟩
  | cons e rest ih =>
    obtain ⟨a, ha, hd, _⟩ := calculateAggregates_some e.2 e.1 kind (hne e (by simp))
    obtain ⟨ih1, ih2⟩ := ih (fun x hx => hne x (List.mem_cons_of_mem _ hx))
    have hcons : (e :: rest).filterMap (fun entry => calculateAggregates entry.2 entry.1 kind)
        = a :: rest.filterMap (fun entry => calculateAggregates entry.2 entry.1 kind) := by
      simp only [List.filterMap_cons, ha]
    constructor
    · rw [List.mapM_cons, ha, ih1, hcons]
      rfl
    · rw [hcons, List.map_cons, List.map_cons, ih2, hd]

theorem strict_of_sorted_nodup {F : Type} (l : List (AggregateMeasurement F))
    (hs : l.Sorted dateAsc) (hnd : (l.map (fun a => a.Date)).Nodup) :
    l.Pairwise (fun a b => a.Date < b.Date) := by
  have h2 : l.Pairwise (fun a b => a.Date ≠ b.Date) := by
    rw [List.Nodup, List.pairwise_map] at hnd
    exact hnd
  exact (List.Pairwise.and hs h2).imp (fun h => lt_of_le_of_ne h.1 h.2)

theorem eq_of_perm_of_strict {F : Type} (l₁ l₂ : List (AggregateMeasurement F))
    (hp : l₁.Perm l₂) (h₁ : l₁.Pairwise (fun a b => a.Date < b.Date))
    (h₂ : l₂.Pairwise (fun a b => a.Date < b.Date)) : l₁ = l₂ := by
  haveI : IsAntisymm (AggregateMeasurement F) (fun a b => a.Date < b.Date) :=
    ⟨fun a b hab hba => absurd hab (not_lt.mpr (le_of_lt hba))⟩
  exact List.eq_of_perm_of_sorted hp h₁ h₂

/-- C5, amended: `AggregateMeasurements` is a function of its arguments and of the
process's time zone `time.Local`. For every time zone, every list of records and
every kind it returns a result, and the same one in whatever orders the grouping
map is visited; the result is empty for an empty input; its dates are strictly
ascending, so no two results share a date; and it is the only arrangement of its
elements that is sorted by date, so it does not depend on how the sort treats
equal keys either. -/
theorem aggregateMeasurements_deterministic {F : Type} [Float64Ops F] (loc : Location)
    (range₁ range₂ :
      List (Int × List (MeasurementRecord F)) → List (Int × List (MeasurementRecord F)))
    (h₁ : MapRange range₁) (h₂ : MapRange range₂)
    (measurements : List (MeasurementRecord F)) (kind : AggregationKind) :
    ∃ results,
      AggregateMeasurements loc range₁ measurements kind = some results
      ∧ AggregateMeasurements loc range₂ measurements kind = some results
      ∧ (measurements = [] → results = [])
      ∧ results.Pairwise (fun a b => a.Date < b.Date)
      ∧ (results.map (fun a => a.Date)).Nodup
      ∧ ∀ other : List (AggregateMeasurement F),
          other.Perm results → other.Sorted dateAsc → other = results := by
  by_cases hlen : measurements.length = 0
  · refine ⟨[], ?_, ?_, fun _ => rfl, List.Pairwise.nil, List.nodup_nil, ?_⟩
    · simp [AggregateMeasurements, hlen]
    · simp [AggregateMeasurements, hlen]
    · intro other hp _
      exact List.Perm.eq_nil hp
  · obtain ⟨hnd, hne⟩ := groupMeasurements_invariant loc kind measurements
    have key : ∀ range, MapRange range →
        ∃ res : List (AggregateMeasurement F),
          AggregateMeasurements loc range measurements kind
              = some (sortAggregateMeasurementByDateAsc res)
          ∧ res.Perm ((groupMeasurements loc kind measurements).filterMap
              (fun entry => calculateAggregates entry.2 entry.1 kind))
          ∧ (res.map (fun a => a.Date)).Nodup := by
      intro range hr
      have hperm := hr (groupMeasurements loc kind measurements)
      have hne2 : ∀ e ∈ range (groupMeasurements loc kind measurements), e.2 ≠ [] :=
        fun e he => hne e (hperm.subset he)
      obtain ⟨hm, hd⟩ := mapM_calculateAggregates kind _ hne2
      refine ⟨_, ?_, hperm.filterMap _, ?_⟩
      · simp only [AggregateMeasurements, hlen, if_false, hm]
      · rw [hd]
        exact (hperm.map Prod.fst).nodup_iff.mpr hnd
    obtain ⟨res₁, e₁, p₁, n₁⟩ := key range₁ h₁
    obtain ⟨res₂, e₂, p₂, n₂⟩ := key range₂ h₂
    have strict : ∀ res : List (AggregateMeasurement F), (res.map (fun a => a.Date)).Nodup →
        (sortAggregateMeasurementByDateAsc res).Pairwise (fun a b => a.Date < b.Date) := by
      intro res hn
      refine strict_of_sorted_nodup _ (List.sorted_insertionSort dateAsc res) ?_
      exact (((List.perm_insertionSort dateAsc res).map _).nodup_iff).mpr hn
    have s₁ := strict res₁ n₁
    have s₂ := strict res₂ n₂
    have hsame : sortAggregateMeasurementByDateAsc res₂ = sortAggregateMeasurementByDateAsc res₁ := by
      refine eq_of_perm_of_strict _ _ ?_ s₂ s₁
      exact ((List.perm_insertionSort dateAsc res₂).trans (p₂.trans p₁.symm)).trans
        (List.perm_insertionSort dateAsc res₁).symm
    have hnd₁ : ((sortAggregateMeasurementByDateAsc res₁).map (fun a => a.Date)).Nodup :=
      (((List.perm_insertionSort dateAsc res₁).map _).nodup_iff).mpr n₁
    refine ⟨sortAggregateMeasurementByDateAsc res₁, e₁, hsame ▸ e₂, ?_, s₁, hnd₁, ?_⟩
    · intro hnil
      exact absurd (by simp [hnil]) hlen
    · intro other hp hs
      refine eq_of_perm_of_strict _ _ hp (strict_of_sorted_nodup _ hs ?_) s₁
      exact ((hp.map _).nodup_iff).mpr hnd₁

/-- C5 at three records grouped by minute, the map visited in insertion order
and in the reverse order. -/
theorem aggregateMeasurements_deterministic_witness :
    ∃ results,
      AggregateMeasurements Location.UTC id sampleRecords Minute = some results
      ∧ AggregateMeasurements Location.UTC List.reverse sampleRecords Minute = some results
      ∧ (sampleRecords = [] → results = [])
      ∧ results.Pairwise (fun a b => a.Date < b.Date)
      ∧ (results.map (fun a => a.Date)).Nodup
      ∧ ∀ other : List (AggregateMeasurement Int),
          other.Perm results → other.Sorted dateAsc → other = results :=
  aggregateMeasurements_deterministic Location.UTC id List.reverse
    (fun entries => List.Perm.refl entries) (fun entries => List.reverse_perm entries)
    sampleRecords Minute

/-- C5 as stated fails: the result is not determined by the arguments alone. The
two Berlin records grouped by hour give two results, dated 00:00:00 UTC and
01:00:00 UTC, when the process's time zone is UTC, and one result, dated
01:00:00 UTC, when it is Europe/Berlin. -/
theorem aggregateMeasurements_depends_on_zone :
    (AggregateMeasurements Location.UTC id berlinRecords Hour).map
        (fun results => results.map (fun a => a.Date)) = some [1698537600, 1698541200]
    ∧ (AggregateMeasurements berlin id berlinRecords Hour).map
        (fun results => results.map (fun a => a.Date)) = some [1698541200]
    ∧ AggregateMeasurements Location.UTC id berlinRecords Hour
        ≠ AggregateMeasurements berlin id berlinRecords Hour :=
  ⟨by decide, by decide, by decide⟩

/-! ## Theorems: the repository -/

theorem write_same {F : Type} (fs : FileSystem F) (path : String) (d : Database F) :
    fs.write path d path = some d := by
  simp [FileSystem.write]

theorem connect_of_file {F : Type} (db : DB) (fs : FileSystem F) (d : Database F)
    (h : fs db.dataSourceName = some d) : db.connect fs = (d, fs) := by
  simp [DB.connect, h]

theorem queryRows_of_table {F : Type} (db : DB) (fs : FileSystem F)
    (rows : List (MeasurementRecord F)) (seq : Int) (hopen : db.closed = false)
    (h : fs db.dataSourceName = some ⟨some rows, seq⟩) :
    db.queryRows fs = (Except.ok rows, fs) := by
  simp [DB.queryRows, hopen, connect_of_file db fs _ h]

theorem save_of_table {F : Type} (httpErrorText : HTTPError → String) (r : SQLiteRepository)
    (fs : FileSystem F) (rows : List (MeasurementRecord F)) (seq : Int)
    (measurement : Measurement F) (now : Time) (hopen : r.db.closed = false)
    (h : fs r.db.dataSourceName = some ⟨some rows, seq⟩) :
    ∃ row : MeasurementRecord F, row.ToMeasurement = measurement ∧ row.ID = seq + 1
      ∧ r.SaveMeasurement httpErrorText measurement now fs
        = (none, fs.write r.db.dataSourceName ⟨some (rows ++ [row]), seq + 1⟩) := by
  refine ⟨⟨seq + 1, measurement.Timestamp, measurement.Temperature, measurement.Humidity,
    measurement.Pressure, Time.ofUnix now.Unix⟩, rfl, rfl, ?_⟩
  simp [SQLiteRepository.SaveMeasurement, DB.execInsert, hopen, connect_of_file r.db fs _ h]

theorem table_of_save {F : Type} (httpErrorText : HTTPError → String) (r : SQLiteRepository)
    (fs fs1 : FileSystem F) (measurement : Measurement F) (now : Time)
    (h : r.SaveMeasurement httpErrorText measurement now fs = (none, fs1)) :
    r.db.closed = false ∧ ∃ rows seq, fs r.db.dataSourceName = some ⟨some rows, seq⟩ := by
  unfold SQLiteRepository.SaveMeasurement DB.execInsert at h
  cases hc : r.db.closed with
  | true => simp [hc] at h
  | false =>
    refine ⟨rfl, ?_⟩
    cases hf : fs r.db.dataSourceName with
    | none => simp [hc, DB.connect, hf] at h
    | some d =>
      obtain ⟨table, seq⟩ := d
      cases table with
      | none => simp [hc, DB.connect, hf] at h
      | some rows => exact ⟨rows, seq, rfl⟩

theorem saveEach_of_table {F : Type} (httpErrorText : HTTPError → String) (r : SQLiteRepository)
    (saves : List (Measurement F × Time)) (fs : FileSystem F)
    (rows : List (MeasurementRecord F)) (seq : Int) (hopen : r.db.closed = false)
    (h : fs r.db.dataSourceName = some ⟨some rows, seq⟩) :
    ∃ added : List (MeasurementRecord F),
      added.map MeasurementRecord.ToMeasurement = saves.map Prod.fst
      ∧ (r.saveEach httpErrorText saves fs).1 = saves.map (fun _ => none)
      ∧ (r.saveEach httpErrorText saves fs).2 r.db.dataSourceName
        = some ⟨some (rows ++ added), seq + saves.length⟩ := by
  induction saves generalizing fs rows seq with
  | nil => exact ⟨[], rfl, rfl, by simpa [SQLiteRepository.saveEach] using h⟩
  | cons s rest ih =>
    obtain ⟨m, now⟩ := s
    obtain ⟨row, hrow, _, hsave⟩ := save_of_table httpErrorText r fs rows seq m now hopen h
    obtain ⟨added, hadd, herrs, hfs⟩ := ih (fs.write r.db.dataSourceName
      ⟨some (rows ++ [row]), seq + 1⟩) (rows ++ [row]) (seq + 1) (write_same _ _ _)
    refine ⟨row :: added, ?_, ?_, ?_⟩
    · simp [hrow, hadd]
    · simp only [SQLiteRepository.saveEach, hsave, herrs, List.map_cons]
    · simp only [SQLiteRepository.saveEach, hsave, hfs, List.append_assoc, List.singleton_append,
        List.length_cons, Nat.cast_add, Nat.cast_one]
      congr 2
      omega

theorem new_of_missing {F : Type} (httpErrorText : HTTPError → String) (filepath : String)
    (fs : FileSystem F)
    (h : fs (if filepath = "" then "weather.db" else filepath) = none) :
    NewSQLiteRepository httpErrorText filepath fs
      = (Except.ok ⟨⟨if filepath = "" then "weather.db" else filepath, false⟩,
            if filepath = "" then "weather.db" else filepath⟩,
          (fs.write (if filepath = "" then "weather.db" else filepath) ⟨none, 0⟩).write
            (if filepath = "" then "weather.db" else filepath) ⟨some [], 0⟩) := by
  simp [NewSQLiteRepository, SQLiteRepository.initializeRepository, h,
    SQLiteRepository.createTables, DB.execCreate, DB.connect]

theorem new_of_file {F : Type} (httpErrorText : HTTPError → String) (filepath : String)
    (fs : FileSystem F) (d : Database F)
    (h : fs (if filepath = "" then "weather.db" else filepath) = some d) :
    NewSQLiteRepository httpErrorText filepath fs
      = (Except.ok ⟨⟨if filepath = "" then "weather.db" else filepath, false⟩,
            if filepath = "" then "weather.db" else filepath⟩, fs) := by
  simp [NewSQLiteRepository, SQLiteRepository.initializeRepository, h]

theorem memcmpLe_total (a b : List Char) : memcmpLe a b = true ∨ memcmpLe b a = true := by
  induction a generalizing b with
  | nil => exact Or.inl (by simp [memcmpLe])
  | cons x xs ih =>
    cases b with
    | nil => exact Or.inr (by simp [memcmpLe])
    | cons y ys =>
      by_cases h1 : x.toNat < y.toNat
      · exact Or.inl (by simp [memcmpLe, h1])
      · by_cases h2 : y.toNat < x.toNat
        · exact Or.inr (by simp [memcmpLe, h2])
        · rcases ih ys with h | h
          · exact Or.inl (by simp [memcmpLe, h1, h2, h])
          · exact Or.inr (by simp [memcmpLe, h1, h2, h])

theorem memcmpLe_trans (a b c : List Char) (hab : memcmpLe a b = true)
    (hbc : memcmpLe b c = true) : memcmpLe a c = true := by
  induction a generalizing b c with
  | nil => simp [memcmpLe]
  | cons x xs ih =>
    cases b with
    | nil => simp [memcmpLe] at hab
    | cons y ys =>
      cases c with
      | nil => simp [memcmpLe] at hbc
      | cons z zs =>
        by_cases hxy : x.toNat < y.toNat
        · by_cases hyz : y.toNat < z.toNat
          · have : x.toNat < z.toNat := by omega
            simp [memcmpLe, this]
          · by_cases hzy : z.toNat < y.toNat
            · simp [memcmpLe, hyz, hzy] at hbc
            · have : x.toNat < z.toNat := by omega
              simp [memcmpLe, this]
        · by_cases hyx : y.toNat < x.toNat
          · simp [memcmpLe, hxy, hyx] at hab
          · simp only [memcmpLe, hxy, hyx, if_false] at hab
            by_cases hyz : y.toNat < z.toNat
            · have : x.toNat < z.toNat := by omega
              simp [memcmpLe, this]
            · by_cases hzy : z.toNat < y.toNat
              · simp [memcmpLe, hyz, hzy] at hbc
              · simp only [memcmpLe, hyz, hzy, if_false] at hbc
                have h1 : ¬ x.toNat < z.toNat := by omega
                have h2 : ¬ z.toNat < x.toNat := by omega
                simp only [memcmpLe, h1, h2, if_false]
                exact ih ys zs hab hbc

theorem sorted_timestampAsc {F : Type} (rows : List (MeasurementRecord F)) :
    (rows.insertionSort timestampAsc).Sorted timestampAsc := by
  haveI : IsTotal (MeasurementRecord F) timestampAsc :=
    ⟨fun a b => memcmpLe_total a.Timestamp.String.data b.Timestamp.String.data⟩
  haveI : IsTrans (MeasurementRecord F) timestampAsc :=
    ⟨fun a b c hab hbc => memcmpLe_trans a.Timestamp.String.data b.Timestamp.String.data
      c.Timestamp.String.data hab hbc⟩
  exact List.sorted_insertionSort timestampAsc rows

theorem sorted_timestampDesc {F : Type} (rows : List (MeasurementRecord F)) :
    (rows.insertionSort timestampDesc).Sorted timestampDesc := by
  haveI : IsTotal (MeasurementRecord F) timestampDesc :=
    ⟨fun a b => memcmpLe_total b.Timestamp.String.data a.Timestamp.String.data⟩
  haveI : IsTrans (MeasurementRecord F) timestampDesc :=
    ⟨fun a b c hab hbc => memcmpLe_trans c.Timestamp.String.data b.Timestamp.String.data
      a.Timestamp.String.data hbc hab⟩
  exact List.sorted_insertionSort timestampDesc rows

theorem mem_selectByTimeRange {F : Type} (rows : List (MeasurementRecord F))
    (startTime endTime : Time) (row : MeasurementRecord F) :
    row ∈ selectByTimeRange rows startTime endTime
      ↔ row ∈ rows ∧ textLe startTime.String row.Timestamp.String
        ∧ textLe row.Timestamp.String endTime.String := by
  simp [selectByTimeRange, List.mem_insertionSort, List.mem_filter]

theorem sorted_scanned_of_ordered {F : Type} (times : List Time) (h : OrderedAsInstants times)
    (l : List (MeasurementRecord F)) (hl : ∀ row ∈ l, row.Timestamp ∈ times)
    (hs : l.Sorted timestampAsc) :
    (l.map MeasurementRecord.scanned).Sorted (fun a b => a.Timestamp.nanos ≤ b.Timestamp.nanos) := by
  rw [List.Sorted, List.pairwise_map]
  exact List.Pairwise.imp_of_mem (fun ha hb hab => (h _ (hl _ ha) _ (hl _ hb)).mp hab) hs

theorem sorted_scanned_desc_of_ordered {F : Type} (times : List Time)
    (h : OrderedAsInstants times) (l : List (MeasurementRecord F))
    (hl : ∀ row ∈ l, row.Timestamp ∈ times) (hs : l.Sorted timestampDesc) :
    (l.map MeasurementRecord.scanned).Sorted (fun a b => b.Timestamp.nanos ≤ a.Timestamp.nanos) := by
  rw [List.Sorted, List.pairwise_map]
  exact List.Pairwise.imp_of_mem (fun ha hb hab => (h _ (hl _ hb) _ (hl _ ha)).mp hab) hs

theorem length_filter_of_saved {F : Type} (p : Time → Bool) (added : List (MeasurementRecord F))
    (saves : List (Measurement F × Time))
    (hadd : added.map MeasurementRecord.ToMeasurement = saves.map Prod.fst) :
    (added.filter (fun row => p row.Timestamp)).length
      = saves.countP (fun s => p s.1.Timestamp) := by
  have hcount : saves.countP (fun s => p s.1.Timestamp)
      = (saves.map Prod.fst).countP (fun m => p m.Timestamp) := by
    rw [List.countP_map]
    rfl
  rw [hcount, ← hadd, List.countP_map, ← List.countP_eq_length_filter]
  rfl

/-- Saving and reading back is a round trip in the order of the stored texts.
The driver stores a timestamp as the text of its `Time.String` and the engine
compares texts. When every `SaveMeasurement` of a non-empty run
succeeded, `GetMeasurementCount` has grown by the number of saves, and
`GetMeasurementsByTimeRange(start, end)` returns the scans of the rows whose
text lies between the texts of the bounds, both included, in ascending order of
the texts; among them is, for every saved measurement with such a text, a
record with its temperature, humidity, pressure and instant. In a repository
that `NewSQLiteRepository` has just created on a path with no file the table
starts empty, so the count is the number of saves and the number of records is
the number of saves within the bounds: one save gives one record and count 1.
Whenever the texts of the bounds and of the table's timestamps are ordered as
their instants are, the records are in ascending timestamp order, all within
the bounds as instants, and every saved measurement with
`start <= Timestamp <= end` is among them. -/
theorem save_then_read {F : Type} (httpErrorText : HTTPError → String) (r : SQLiteRepository)
    (fs : FileSystem F) (saves : List (Measurement F × Time)) (startTime endTime : Time)
    (hne : saves ≠ [])
    (hok : ∀ e ∈ (r.saveEach httpErrorText saves fs).1, e = none) :
    ∃ (rows selected : List (MeasurementRecord F)) (seq : Int),
      fs r.db.dataSourceName = some ⟨some rows, seq⟩
      ∧ r.GetMeasurementCount httpErrorText fs = (Except.ok (rows.length : Int), fs)
      ∧ r.GetMeasurementCount httpErrorText (r.saveEach httpErrorText saves fs).2
          = (Except.ok ((rows.length : Int) + saves.length), (r.saveEach httpErrorText saves fs).2)
      ∧ r.GetMeasurementsByTimeRange httpErrorText startTime endTime
            (r.saveEach httpErrorText saves fs).2
          = (Except.ok (selected.map MeasurementRecord.scanned),
              (r.saveEach httpErrorText saves fs).2)
      ∧ selected.Sorted timestampAsc
      ∧ (∀ row ∈ selected, textLe startTime.String row.Timestamp.String
          ∧ textLe row.Timestamp.String endTime.String)
      ∧ (∀ s ∈ saves, textLe startTime.String s.1.Timestamp.String →
          textLe s.1.Timestamp.String endTime.String →
          ∃ rec ∈ selected.map MeasurementRecord.scanned,
            rec.Timestamp = s.1.Timestamp.scanned ∧ rec.Temperature = s.1.Temperature
            ∧ rec.Humidity = s.1.Humidity ∧ rec.Pressure = s.1.Pressure)
      ∧ (rows = [] → (selected.map MeasurementRecord.scanned).length = saves.countP (fun s =>
          decide (textLe startTime.String s.1.Timestamp.String)
            && decide (textLe s.1.Timestamp.String endTime.String)))
      ∧ (∀ (filepath : String) (fs0 : FileSystem F),
          fs0 (if filepath = "" then "weather.db" else filepath) = none →
          NewSQLiteRepository httpErrorText filepath fs0 = (Except.ok r, fs) → rows = [])
      ∧ (OrderedAsInstants (startTime :: endTime ::
            (rows.map (fun row => row.Timestamp) ++ saves.map (fun s => s.1.Timestamp))) →
          (selected.map MeasurementRecord.scanned).Sorted
              (fun a b => a.Timestamp.nanos ≤ b.Timestamp.nanos)
          ∧ (∀ rec ∈ selected.map MeasurementRecord.scanned,
              startTime.nanos ≤ rec.Timestamp.nanos ∧ rec.Timestamp.nanos ≤ endTime.nanos)
          ∧ ∀ s ∈ saves, startTime.nanos ≤ s.1.Timestamp.nanos →
              s.1.Timestamp.nanos ≤ endTime.nanos →
              ∃ rec ∈ selected.map MeasurementRecord.scanned,
                rec.Timestamp.nanos = s.1.Timestamp.nanos ∧ rec.Temperature = s.1.Temperature
                ∧ rec.Humidity = s.1.Humidity ∧ rec.Pressure = s.1.Pressure) := by
  obtain ⟨hopen, rows, seq, htable⟩ : r.db.closed = false
      ∧ ∃ rows seq, fs r.db.dataSourceName = some ⟨some rows, seq⟩ := by
    cases saves with
    | nil => exact absurd rfl hne
    | cons s rest =>
      obtain ⟨m, now⟩ := s
      rcases hsave : r.SaveMeasurement httpErrorText m now fs with ⟨e, fs1⟩
      have he : e = none := by
        apply hok
        simp [SQLiteRepository.saveEach, hsave]
      exact table_of_save httpErrorText r fs fs1 m now (he ▸ hsave)
  obtain ⟨added, hadd, _, hfs⟩ := saveEach_of_table httpErrorText r saves fs rows seq hopen htable
  have hq := queryRows_of_table r.db _ _ _ hopen hfs
  have hlen : added.length = saves.length := by
    have := congrArg List.length hadd
    simpa using this
  have hfind : ∀ s ∈ saves, ∃ row ∈ added, row.ToMeasurement = s.1 := by
    intro s hs
    have hmem : s.1 ∈ added.map MeasurementRecord.ToMeasurement := by
      rw [hadd]
      exact List.mem_map_of_mem Prod.fst hs
    obtain ⟨row, hrow, hconv⟩ := List.mem_map.mp hmem
    exact ⟨row, hrow, hconv⟩
  have hreturn : ∀ s ∈ saves, textLe startTime.String s.1.Timestamp.String →
      textLe s.1.Timestamp.String endTime.String →
      ∃ rec ∈ (selectByTimeRange (rows ++ added) startTime endTime).map MeasurementRecord.scanned,
        rec.Timestamp = s.1.Timestamp.scanned ∧ rec.Temperature = s.1.Temperature
        ∧ rec.Humidity = s.1.Humidity ∧ rec.Pressure = s.1.Pressure := by
    intro s hs h1 h2
    obtain ⟨row, hrow, hconv⟩ := hfind s hs
    have hts : row.Timestamp = s.1.Timestamp := congrArg Measurement.Timestamp hconv
    refine ⟨row.scanned, List.mem_map_of_mem _ ((mem_selectByTimeRange _ _ _ _).mpr
      ⟨List.mem_append_right _ hrow, ?_, ?_⟩), ?_, congrArg Measurement.Temperature hconv,
      congrArg Measurement.Humidity hconv, congrArg Measurement.Pressure hconv⟩
    · rw [hts]; exact h1
    · rw [hts]; exact h2
    · show row.Timestamp.scanned = s.1.Timestamp.scanned
      rw [hts]
  refine ⟨rows, selectByTimeRange (rows ++ added) startTime endTime, seq, htable, ?_, ?_, ?_,
    sorted_timestampAsc _, ?_, hreturn, ?_, ?_, ?_⟩
  · simp [SQLiteRepository.GetMeasurementCount, queryRows_of_table r.db fs rows seq hopen htable]
  · simp [SQLiteRepository.GetMeasurementCount, hq, hlen]
  · simp [SQLiteRepository.GetMeasurementsByTimeRange, hq]
  · intro row hrow
    exact ((mem_selectByTimeRange _ _ _ _).mp hrow).2
  · intro hrows
    subst hrows
    rw [List.length_map, selectByTimeRange, List.length_insertionSort, List.nil_append]
    exact length_filter_of_saved (fun t => decide (textLe startTime.String t.String)
      && decide (textLe t.String endTime.String)) added saves hadd
  · intro filepath fs0 hmissing hnew
    rw [new_of_missing httpErrorText filepath fs0 hmissing] at hnew
    have h1 := (Prod.mk.inj hnew).1
    have h2 := (Prod.mk.inj hnew).2
    have hr : r = ⟨⟨if filepath = "" then "weather.db" else filepath, false⟩,
        if filepath = "" then "weather.db" else filepath⟩ := (Except.ok.inj h1).symm
    rw [← h2, hr, write_same] at htable
    have := (Option.some.inj htable)
    have hrows : some [] = some rows := congrArg Database.measurements this
    exact (Option.some.inj hrows).symm
  · intro hord
    have hstart : startTime ∈ startTime :: endTime ::
        (rows.map (fun row => row.Timestamp) ++ saves.map (fun s => s.1.Timestamp)) := by simp
    have hend : endTime ∈ startTime :: endTime ::
        (rows.map (fun row => row.Timestamp) ++ saves.map (fun s => s.1.Timestamp)) := by simp
    have hsaved : ∀ s ∈ saves, s.1.Timestamp ∈ startTime :: endTime ::
        (rows.map (fun row => row.Timestamp) ++ saves.map (fun s => s.1.Timestamp)) := by
      intro s hs
      refine List.mem_cons_of_mem _ (List.mem_cons_of_mem _ (List.mem_append_right _ ?_))
      exact List.mem_map.mpr ⟨s, hs, rfl⟩
    have htimes : ∀ row ∈ rows ++ added, row.Timestamp ∈ startTime :: endTime ::
        (rows.map (fun row => row.Timestamp) ++ saves.map (fun s => s.1.Timestamp)) := by
      intro row hrow
      refine List.mem_cons_of_mem _ (List.mem_cons_of_mem _ ?_)
      rcases List.mem_append.mp hrow with h | h
      · exact List.mem_append_left _ (List.mem_map.mpr ⟨row, h, rfl⟩)
      · refine List.mem_append_right _ ?_
        have hconv : row.ToMeasurement ∈ saves.map Prod.fst := by
          rw [← hadd]
          exact List.mem_map_of_mem _ h
        obtain ⟨s, hs, hse⟩ := List.mem_map.mp hconv
        refine List.mem_map.mpr ⟨s, hs, ?_⟩
        show s.1.Timestamp = row.ToMeasurement.Timestamp
        rw [hse]
    have hsel : ∀ row ∈ selectByTimeRange (rows ++ added) startTime endTime,
        row.Timestamp ∈ startTime :: endTime ::
          (rows.map (fun row => row.Timestamp) ++ saves.map (fun s => s.1.Timestamp)) :=
      fun row hrow => htimes row ((mem_selectByTimeRange _ _ _ _).mp hrow).1
    refine ⟨sorted_scanned_of_ordered _ hord _ hsel (sorted_timestampAsc _), ?_, ?_⟩
    · intro rec hrec
      obtain ⟨row, hrow, hscan⟩ := List.mem_map.mp hrec
      have hb := ((mem_selectByTimeRange _ _ _ _).mp hrow).2
      have hn : rec.Timestamp.nanos = row.Timestamp.nanos := by rw [← hscan]; rfl
      rw [hn]
      exact ⟨(hord _ hstart _ (hsel row hrow)).mp hb.1, (hord _ (hsel row hrow) _ hend).mp hb.2⟩
    · intro s hs h1 h2
      obtain ⟨rec, hrec, hts, hrest⟩ := hreturn s hs
        ((hord _ hstart _ (hsaved s hs)).mpr h1) ((hord _ (hsaved s hs) _ hend).mpr h2)
      exact ⟨rec, hrec, by rw [hts]; rfl, hrest⟩

/-- The round trip at one save into the repository just created by the test, all
times in UTC. -/
theorem save_then_read_witness :
    sampleSaves ≠ []
    ∧ (∀ e ∈ (sampleRepository.saveEach sampleHTTPErrorText sampleSaves sampleFiles).1, e = none)
    ∧ OrderedAsInstants [(Time.utc 0), (Time.utc 2000), (Time.utc 1000)]
    ∧ ∃ (rows selected : List (MeasurementRecord Int)) (seq : Int),
      sampleFiles sampleRepository.db.dataSourceName = some ⟨some rows, seq⟩
      ∧ sampleRepository.GetMeasurementCount sampleHTTPErrorText sampleFiles
          = (Except.ok (rows.length : Int), sampleFiles)
      ∧ sampleRepository.GetMeasurementCount sampleHTTPErrorText
            (sampleRepository.saveEach sampleHTTPErrorText sampleSaves sampleFiles).2
          = (Except.ok ((rows.length : Int) + sampleSaves.length),
              (sampleRepository.saveEach sampleHTTPErrorText sampleSaves sampleFiles).2)
      ∧ sampleRepository.GetMeasurementsByTimeRange sampleHTTPErrorText (Time.utc 0)
            (Time.utc 2000)
            (sampleRepository.saveEach sampleHTTPErrorText sampleSaves sampleFiles).2
          = (Except.ok (selected.map MeasurementRecord.scanned),
              (sampleRepository.saveEach sampleHTTPErrorText sampleSaves sampleFiles).2)
      ∧ selected.Sorted timestampAsc
      ∧ (∀ s ∈ sampleSaves, textLe (Time.utc 0).String s.1.Timestamp.String →
          textLe s.1.Timestamp.String (Time.utc 2000).String →
          ∃ rec ∈ selected.map MeasurementRecord.scanned,
            rec.Timestamp = s.1.Timestamp.scanned ∧ rec.Temperature = s.1.Temperature
            ∧ rec.Humidity = s.1.Humidity ∧ rec.Pressure = s.1.Pressure)
      ∧ (rows = [] →
          (selected.map MeasurementRecord.scanned).length = sampleSaves.countP (fun s =>
            decide (textLe (Time.utc 0).String s.1.Timestamp.String)
              && decide (textLe s.1.Timestamp.String (Time.utc 2000).String))) :=
  ⟨by decide, by decide, by decide,
    match save_then_read sampleHTTPErrorText sampleRepository sampleFiles sampleSaves
        (Time.utc 0) (Time.utc 2000) (by decide) (by decide) with
    | ⟨rows, selected, seq, h1, h2, h3, h4, h5, _, h7, h8, _, _⟩ =>
      ⟨rows, selected, seq, h1, h2, h3, h4, h5, h7, h8⟩⟩

/-- C6 at failing inputs: the claim asks for the records within the bounds in
timestamp order, as the comment of `GetMeasurementsByTimeRange` and the test do,
but the engine compares the texts of the times and not the instants. A measurement taken at 22:13:20 UTC and saved into a fresh
repository is not returned between bounds one hour before and one hour after it
given in a zone five hours west: its text `2023-11-14 22:13:20 +0000 UTC` comes
after the text `2023-11-14 18:13:20 -0500 EST` of the upper bound. It is not
returned either when it carries a monotonic clock reading and the upper bound
is the same instant without one. And the two Berlin rows are returned with the
later instant first. -/
theorem save_then_read_compares_text :
    (∀ e ∈ (sampleRepository.saveEach sampleHTTPErrorText utcSaves sampleFiles).1, e = none)
    ∧ (∀ s ∈ utcSaves, easternStart.nanos ≤ s.1.Timestamp.nanos
        ∧ s.1.Timestamp.nanos ≤ easternEnd.nanos)
    ∧ utcSaves.map (fun s => s.1.Timestamp.String) = ["2023-11-14 22:13:20 +0000 UTC"]
    ∧ easternStart.String = "2023-11-14 16:13:20 -0500 EST"
    ∧ easternEnd.String = "2023-11-14 18:13:20 -0500 EST"
    ∧ (sampleRepository.GetMeasurementsByTimeRange sampleHTTPErrorText easternStart easternEnd
        (sampleRepository.saveEach sampleHTTPErrorText utcSaves sampleFiles).2).1 = Except.ok []
    ∧ utcNow.String = "2023-11-14 22:13:20 +0000 UTC m=+1.500000000"
    ∧ (sampleRepository.GetMeasurementsByTimeRange sampleHTTPErrorText
        (Time.utc 1699996400000000000) (Time.utc 1700000000000000000)
        (sampleRepository.saveEach sampleHTTPErrorText [(⟨utcNow, 25, 60, 101325⟩, utcNow)]
          sampleFiles).2).1 = Except.ok []
    ∧ (sampleRepository.GetMeasurementsByTimeRange sampleHTTPErrorText (Time.utc 0)
        (Time.utc 4000000000000000000) berlinStore).1
        = Except.ok [⟨2, berlinWinter, 11, 82, 1011, (Time.utc 0)⟩,
            ⟨1, berlinSummer, 12, 80, 1010, (Time.utc 0)⟩]
    ∧ berlinSummer.nanos < berlinWinter.nanos :=
  ⟨by decide, by decide, by decide, by decide, by decide, rfl, by decide, rfl, rfl, by decide⟩

/-- On a repository holding `rows`, `GetLatestMeasurements(limit)` with
`limit >= 0` returns exactly `min(limit, number of rows)` records, the
scans of rows ordered by the stored text of the timestamp descending, and they
are rows with the greatest texts: the rows left out are the rest of the table
and the text of none of them comes after the text of a returned one. Whenever
the texts of the table's timestamps are ordered as their instants are, the
records are ordered by timestamp descending and no row left out is more recent
than a returned one. -/
theorem getLatestMeasurements_newest {F : Type} (httpErrorText : HTTPError → String)
    (r : SQLiteRepository) (fs : FileSystem F) (rows : List (MeasurementRecord F)) (seq : Int)
    (limit : Int) (hopen : r.db.closed = false)
    (htable : fs r.db.dataSourceName = some ⟨some rows, seq⟩) (hlimit : 0 ≤ limit) :
    ∃ selected rest : List (MeasurementRecord F),
      r.GetLatestMeasurements httpErrorText limit fs
        = (Except.ok (selected.map MeasurementRecord.scanned), fs)
      ∧ ((selected.map MeasurementRecord.scanned).length : Int) = min limit (rows.length : Int)
      ∧ selected.Sorted timestampDesc
      ∧ (selected ++ rest).Perm rows
      ∧ (∀ a ∈ selected, ∀ b ∈ rest, textLe b.Timestamp.String a.Timestamp.String)
      ∧ (OrderedAsInstants (rows.map (fun row => row.Timestamp)) →
          (selected.map MeasurementRecord.scanned).Sorted
              (fun a b => b.Timestamp.nanos ≤ a.Timestamp.nanos)
          ∧ ∀ a ∈ selected, ∀ b ∈ rest, b.Timestamp.nanos ≤ a.Timestamp.nanos) := by
  have hsorted := sorted_timestampDesc rows
  have hperm : ((rows.insertionSort timestampDesc).take limit.toNat
      ++ (rows.insertionSort timestampDesc).drop limit.toNat).Perm rows := by
    rw [List.take_append_drop]
    exact List.perm_insertionSort timestampDesc rows
  have hcross : ∀ a ∈ (rows.insertionSort timestampDesc).take limit.toNat,
      ∀ b ∈ (rows.insertionSort timestampDesc).drop limit.toNat,
        textLe b.Timestamp.String a.Timestamp.String := by
    have h := hsorted
    rw [List.Sorted, ← List.take_append_drop limit.toNat (rows.insertionSort timestampDesc),
      List.pairwise_append] at h
    exact h.2.2
  have htake : ((rows.insertionSort timestampDesc).take limit.toNat).Sorted timestampDesc :=
    List.Pairwise.sublist (List.take_sublist _ _) hsorted
  refine ⟨(rows.insertionSort timestampDesc).take limit.toNat,
    (rows.insertionSort timestampDesc).drop limit.toNat, ?_, ?_, htake, hperm, hcross, ?_⟩
  · simp [SQLiteRepository.GetLatestMeasurements, queryRows_of_table r.db fs rows seq hopen htable,
      selectLatest, not_lt.mpr hlimit]
  · rw [List.length_map, List.length_take, List.length_insertionSort]
    have h := Int.toNat_of_nonneg hlimit
    omega
  · intro hord
    have hin : ∀ row ∈ (rows.insertionSort timestampDesc).take limit.toNat
        ++ (rows.insertionSort timestampDesc).drop limit.toNat,
        row.Timestamp ∈ rows.map (fun row => row.Timestamp) :=
      fun row hrow => List.mem_map.mpr ⟨row, hperm.subset hrow, rfl⟩
    refine ⟨sorted_scanned_desc_of_ordered _ hord _
      (fun row hrow => hin row (List.mem_append_left _ hrow)) htake, ?_⟩
    intro a ha b hb
    exact (hord _ (hin b (List.mem_append_right _ hb)) _
      (hin a (List.mem_append_left _ ha))).mp (hcross a ha b hb)

/-- The latest of the sample rows, all in UTC, with limit 3. -/
theorem getLatestMeasurements_newest_witness :
    OrderedAsInstants (sampleTable.map (fun row => row.Timestamp))
    ∧ ∃ selected rest : List (MeasurementRecord Int),
      sampleRepository.GetLatestMeasurements sampleHTTPErrorText 3 sampleStore
        = (Except.ok (selected.map MeasurementRecord.scanned), sampleStore)
      ∧ ((selected.map MeasurementRecord.scanned).length : Int)
          = min 3 (sampleTable.length : Int)
      ∧ selected.Sorted timestampDesc
      ∧ (selected ++ rest).Perm sampleTable
      ∧ (∀ a ∈ selected, ∀ b ∈ rest, textLe b.Timestamp.String a.Timestamp.String)
      ∧ (OrderedAsInstants (sampleTable.map (fun row => row.Timestamp)) →
          (selected.map MeasurementRecord.scanned).Sorted
              (fun a b => b.Timestamp.nanos ≤ a.Timestamp.nanos)
          ∧ ∀ a ∈ selected, ∀ b ∈ rest, b.Timestamp.nanos ≤ a.Timestamp.nanos) :=
  ⟨by decide,
    getLatestMeasurements_newest sampleHTTPErrorText sampleRepository sampleStore sampleTable 4 3
      rfl rfl (by decide)⟩

/-- C7 at a failing input: the claim asks for the most recent records first, as
the comment of `GetLatestMeasurements` and the test do, but the engine orders
the texts of the times and not the instants. Of the two Berlin rows, taken at 00:30:00 UTC and 01:30:00 UTC,
`GetLatestMeasurements(1)` returns the older one: its text
`2023-10-29 02:30:00 +0200 CEST` comes after the text
`2023-10-29 02:30:00 +0100 CET` of the more recent row. With limit 2 the older
row comes first. -/
theorem getLatestMeasurements_orders_text :
    berlinStore sampleRepository.db.dataSourceName = some ⟨some berlinRecords, 2⟩
    ∧ berlinRecords.map (fun row => row.Timestamp.String)
        = ["2023-10-29 02:30:00 +0200 CEST", "2023-10-29 02:30:00 +0100 CET"]
    ∧ berlinRecords.map (fun row => row.Timestamp.nanos)
        = [1698539400000000000, 1698543000000000000]
    ∧ (sampleRepository.GetLatestMeasurements sampleHTTPErrorText 1 berlinStore).1
        = Except.ok [⟨1, berlinSummer, 12, 80, 1010, (Time.utc 0)⟩]
    ∧ (sampleRepository.GetLatestMeasurements sampleHTTPErrorText 2 berlinStore).1
        = Except.ok [⟨1, berlinSummer, 12, 80, 1010, (Time.utc 0)⟩,
            ⟨2, berlinWinter, 11, 82, 1011, (Time.utc 0)⟩]
    ∧ berlinSummer.nanos < berlinWinter.nanos :=
  ⟨rfl, by decide, by decide, rfl, rfl, by decide⟩

/-- C8: opening a repository on a path with no file creates the table
`measurements`; after `saves` are saved through it (each save succeeds) and it
is closed, opening the same path again succeeds, leaves every file as it was,
and `GetMeasurementCount` on the new repository returns the number of saves.
More generally, opening a path whose file exists changes no file, so no table
is created then. -/
theorem reopen_keeps_contents {F : Type} (httpErrorText : HTTPError → String) (filepath : String)
    (fs0 : FileSystem F) (saves : List (Measurement F × Time))
    (hmissing : fs0 (if filepath = "" then "weather.db" else filepath) = none) :
    ∃ (repo1 repo2 : SQLiteRepository) (fs1 : FileSystem F),
      NewSQLiteRepository httpErrorText filepath fs0 = (Except.ok repo1, fs1)
      ∧ fs1 (if filepath = "" then "weather.db" else filepath) = some ⟨some [], 0⟩
      ∧ (∀ e ∈ (repo1.saveEach httpErrorText saves fs1).1, e = none)
      ∧ repo1.Close.1 = none
      ∧ NewSQLiteRepository httpErrorText filepath (repo1.saveEach httpErrorText saves fs1).2
          = (Except.ok repo2, (repo1.saveEach httpErrorText saves fs1).2)
      ∧ repo2.GetMeasurementCount httpErrorText (repo1.saveEach httpErrorText saves fs1).2
          = (Except.ok (saves.length : Int), (repo1.saveEach httpErrorText saves fs1).2)
      ∧ ∀ (fs : FileSystem F) (d : Database F),
          fs (if filepath = "" then "weather.db" else filepath) = some d →
          (NewSQLiteRepository httpErrorText filepath fs).2 = fs := by
  have hnew := new_of_missing httpErrorText filepath fs0 hmissing
  obtain ⟨added, hadd, herrs, hfs⟩ := saveEach_of_table httpErrorText
    ⟨⟨if filepath = "" then "weather.db" else filepath, false⟩,
      if filepath = "" then "weather.db" else filepath⟩ saves _ [] 0 rfl (write_same _ _ _)
  have hlen : added.length = saves.length := by
    have := congrArg List.length hadd
    simpa using this
  refine ⟨_, ⟨⟨if filepath = "" then "weather.db" else filepath, false⟩,
      if filepath = "" then "weather.db" else filepath⟩, _, hnew, write_same _ _ _, ?_, rfl,
    new_of_file httpErrorText filepath _ _ hfs, ?_, ?_⟩
  · intro e he
    rw [herrs] at he
    obtain ⟨_, _, h⟩ := List.mem_map.mp he
    exact h.symm
  · simp [SQLiteRepository.GetMeasurementCount, queryRows_of_table _ _ _ _ rfl hfs, hlen]
  · intro fs d hd
    rw [new_of_file httpErrorText filepath fs d hd]

/-- C8 at the test's path, with no file to start with and one save. -/
theorem reopen_keeps_contents_witness :
    noFiles (if "test_existing_weather.db" = "" then "weather.db" else "test_existing_weather.db")
      = none
    ∧ ∃ (repo1 repo2 : SQLiteRepository) (fs1 : FileSystem Int),
      NewSQLiteRepository sampleHTTPErrorText "test_existing_weather.db" noFiles
        = (Except.ok repo1, fs1)
      ∧ fs1 (if "test_existing_weather.db" = "" then "weather.db" else "test_existing_weather.db")
          = some ⟨some [], 0⟩
      ∧ (∀ e ∈ (repo1.saveEach sampleHTTPErrorText sampleSaves fs1).1, e = none)
      ∧ repo1.Close.1 = none
      ∧ NewSQLiteRepository sampleHTTPErrorText "test_existing_weather.db"
            (repo1.saveEach sampleHTTPErrorText sampleSaves fs1).2
          = (Except.ok repo2, (repo1.saveEach sampleHTTPErrorText sampleSaves fs1).2)
      ∧ repo2.GetMeasurementCount sampleHTTPErrorText
            (repo1.saveEach sampleHTTPErrorText sampleSaves fs1).2
          = (Except.ok (sampleSaves.length : Int),
              (repo1.saveEach sampleHTTPErrorText sampleSaves fs1).2)
      ∧ ∀ (fs : FileSystem Int) (d : Database Int),
          fs (if "test_existing_weather.db" = "" then "weather.db" else "test_existing_weather.db")
            = some d →
          (NewSQLiteRepository sampleHTTPErrorText "test_existing_weather.db" fs).2 = fs :=
  ⟨rfl, reopen_keeps_contents sampleHTTPErrorText "test_existing_weather.db" noFiles sampleSaves
    rfl⟩

theorem process_world_of_saved {F Ctx W : Type} (httpErrorText : HTTPError → String)
    (w : OpenWeatherWorker F Ctx W) (ctx : Ctx) (msg : Message (Measurement F)) (world world1 : W)
    (hsave : w.repository msg.Data world = (none, world1)) :
    (w.Process httpErrorText ctx msg world).world = (w.client ctx (w.payload msg) world1).2 := by
  unfold OpenWeatherWorker.Process
  rcases hc : w.client ctx (w.payload msg) world1 with ⟨_ | e2, w2⟩
  · simp [hsave, hc]
  · cases e2 <;> simp [hsave, hc]

theorem processEach_sqlite {F Ctx R : Type} (httpErrorText : HTTPError → String)
    (repo : SQLiteRepository) (clock : R → Time)
    (send : Ctx → OWMeasurement F → R → Option GoError × R) (stationID : String)
    (d : Measurement F) (invocations : List (Ctx × Nat)) (fs : FileSystem F)
    (rows : List (MeasurementRecord F)) (seq : Int) (remote : R)
    (hopen : repo.db.closed = false)
    (htable : fs repo.db.dataSourceName = some ⟨some rows, seq⟩) :
    ∃ added : List (MeasurementRecord F),
      ((sqliteWorker httpErrorText repo clock send stationID).processEach httpErrorText
          (invocations.map (fun i => (i.1, (⟨d, i.2⟩ : Message (Measurement F)))))
          (fs, remote)).2.1 repo.db.dataSourceName
        = some ⟨some (rows ++ added), seq + invocations.length⟩
      ∧ added.length = invocations.length
      ∧ ∀ a ∈ added, a.ToMeasurement = d := by
  induction invocations generalizing fs rows seq remote with
  | nil => exact ⟨[], by simpa [OpenWeatherWorker.processEach] using htable, rfl, by simp⟩
  | cons i rest ih =>
    obtain ⟨row, hrow, _, hsave⟩ :=
      save_of_table httpErrorText repo fs rows seq d (clock remote) hopen htable
    have hrepo : (sqliteWorker httpErrorText repo clock send stationID).repository
        (⟨d, i.2⟩ : Message (Measurement F)).Data (fs, remote)
        = (none, (fs.write repo.db.dataSourceName ⟨some (rows ++ [row]), seq + 1⟩, remote)) := by
      simp [sqliteWorker, hsave]
    have hworld := process_world_of_saved httpErrorText
      (sqliteWorker httpErrorText repo clock send stationID) i.1 ⟨d, i.2⟩ _ _ hrepo
    have hfs : ((sqliteWorker httpErrorText repo clock send stationID).Process httpErrorText i.1
        ⟨d, i.2⟩ (fs, remote)).world
        = (fs.write repo.db.dataSourceName ⟨some (rows ++ [row]), seq + 1⟩,
            (send i.1 ((sqliteWorker httpErrorText repo clock send stationID).payload ⟨d, i.2⟩)
              remote).2) := by
      rw [hworld]
      simp [sqliteWorker]
    obtain ⟨added, hadd, hlen, hall⟩ := ih
      (fs.write repo.db.dataSourceName ⟨some (rows ++ [row]), seq + 1⟩) (rows ++ [row]) (seq + 1)
      (send i.1 ((sqliteWorker httpErrorText repo clock send stationID).payload ⟨d, i.2⟩)
        remote).2 (write_same _ _ _)
    refine ⟨row :: added, ?_, by simp [hlen], ?_⟩
    · simp only [List.map_cons, OpenWeatherWorker.processEach, hfs, hadd, List.append_assoc,
        List.singleton_append, List.length_cons, Nat.cast_add, Nat.cast_one]
      congr 2
      omega
    · intro a ha
      rcases List.mem_cons.mp ha with h | h
      · rw [h]; exact hrow
      · exact hall a h

/-- C10: every run of `Process` makes exactly one `SaveMeasurement` call, on the
message's data, whatever the attempt count; and with the SQLite repository as
the store, each run inserts one more row whatever rows the table already holds
and whatever the remote client answers. So after `k` runs on the same
measurement, as when the send fails `k-1` times and then succeeds, the table has
`k` more rows, each of them that measurement. -/
theorem process_inserts_on_every_attempt {F Ctx R : Type} (httpErrorText : HTTPError → String)
    (repo : SQLiteRepository) (clock : R → Time)
    (send : Ctx → OWMeasurement F → R → Option GoError × R) (stationID : String)
    (d : Measurement F) (invocations : List (Ctx × Nat)) (fs : FileSystem F)
    (rows : List (MeasurementRecord F)) (seq : Int) (remote : R)
    (hopen : repo.db.closed = false)
    (htable : fs repo.db.dataSourceName = some ⟨some rows, seq⟩) :
    (∀ (W : Type) (w : OpenWeatherWorker F Ctx W) (ctx : Ctx) (attempts : Nat) (world : W),
        (w.Process httpErrorText ctx ⟨d, attempts⟩ world).calls.filter Call.isSave
          = [Call.SaveMeasurement d])
      ∧ (∀ (m : Measurement F) (now : Time),
          ∃ row, (repo.SaveMeasurement httpErrorText m now fs).1 = none
            ∧ (repo.SaveMeasurement httpErrorText m now fs).2 repo.db.dataSourceName
              = some ⟨some (rows ++ [row]), seq + 1⟩
            ∧ row.ToMeasurement = m)
      ∧ ∃ added : List (MeasurementRecord F),
          ((sqliteWorker httpErrorText repo clock send stationID).processEach httpErrorText
              (invocations.map (fun i => (i.1, (⟨d, i.2⟩ : Message (Measurement F)))))
              (fs, remote)).2.1 repo.db.dataSourceName
            = some ⟨some (rows ++ added), seq + invocations.length⟩
          ∧ added.length = invocations.length
          ∧ ∀ a ∈ added, a.ToMeasurement = d := by
  refine ⟨?_, ?_, processEach_sqlite httpErrorText repo clock send stationID d invocations fs rows
    seq remote hopen htable⟩
  · intro W w ctx attempts world
    unfold OpenWeatherWorker.Process
    rcases hs : w.repository d world with ⟨_ | e1, w1⟩
    · rcases hc : w.client ctx (w.payload ⟨d, attempts⟩) w1 with ⟨_ | e2, w2⟩
      · simp [hs, hc, Call.isSave]
      · cases e2 <;> simp [hs, hc, Call.isSave]
    · simp [hs, Call.isSave]
  · intro m now
    obtain ⟨row, hrow, _, hsave⟩ := save_of_table httpErrorText repo fs rows seq m now hopen htable
    exact ⟨row, by rw [hsave], by rw [hsave]; exact write_same _ _ _, hrow⟩

/-- C10 at three runs on one measurement whose timestamp the table already
holds, the send failing twice and then succeeding. -/
theorem process_inserts_on_every_attempt_witness :
    (∀ (W : Type) (w : OpenWeatherWorker Int Unit W) (ctx : Unit) (attempts : Nat) (world : W),
        (w.Process sampleHTTPErrorText ctx ⟨⟨(Time.utc 300), 20, 50, 1000⟩, attempts⟩ world).calls.filter
            Call.isSave
          = [Call.SaveMeasurement ⟨(Time.utc 300), 20, 50, 1000⟩])
      ∧ (∀ (m : Measurement Int) (now : Time),
          ∃ row, (sampleRepository.SaveMeasurement sampleHTTPErrorText m now sampleStore).1 = none
            ∧ (sampleRepository.SaveMeasurement sampleHTTPErrorText m now sampleStore).2
                sampleRepository.db.dataSourceName
              = some ⟨some (sampleTable ++ [row]), 4 + 1⟩
            ∧ row.ToMeasurement = m)
      ∧ ∃ added : List (MeasurementRecord Int),
          ((sqliteWorker sampleHTTPErrorText sampleRepository (fun _ => (Time.utc 0)) sampleSend
                "station").processEach sampleHTTPErrorText
              ([((), 0), ((), 1), ((), 2)].map
                (fun i => (i.1, (⟨⟨(Time.utc 300), 20, 50, 1000⟩, i.2⟩ : Message (Measurement Int)))))
              (sampleStore, 2)).2.1 sampleRepository.db.dataSourceName
            = some ⟨some (sampleTable ++ added), 4 + [((), 0), ((), 1), ((), 2)].length⟩
          ∧ added.length = [((), 0), ((), 1), ((), 2)].length
          ∧ ∀ a ∈ added, a.ToMeasurement = ⟨(Time.utc 300), 20, 50, 1000⟩ :=
  process_inserts_on_every_attempt sampleHTTPErrorText sampleRepository (fun _ => (Time.utc 0)) sampleSend
    "station" ⟨(Time.utc 300), 20, 50, 1000⟩ [((), 0), ((), 1), ((), 2)] sampleStore sampleTable 4 2 rfl rfl

/-! ## Theorems: pressure extremes -/

theorem foldl_step_pressMin {F : Type} [Float64Ops F] (l : List (MeasurementRecord F))
    (s : Sums F) :
    ((l.foldl Sums.step s).pressMin = s.pressMin
        ∨ (l.foldl Sums.step s).pressMin ∈ l.map (fun r => r.Pressure))
      ∧ (l.foldl Sums.step s).pressMin ≤ s.pressMin
      ∧ ∀ r ∈ l, (l.foldl Sums.step s).pressMin ≤ r.Pressure := by
  induction l generalizing s with
  | nil => simp
  | cons m rest ih =>
    obtain ⟨h1, h2, h3⟩ := ih (s.step m)
    have hstep : (s.step m).pressMin = if m.Pressure < s.pressMin then m.Pressure else s.pressMin :=
      rfl
    simp only [List.foldl_cons, List.map_cons, List.mem_cons, forall_eq_or_imp]
    refine ⟨?_, ?_, ?_, h3⟩
    · rcases h1 with h | h
      · rw [h, hstep]
        by_cases hlt : m.Pressure < s.pressMin
        · rw [if_pos hlt]; exact Or.inr (Or.inl rfl)
        · rw [if_neg hlt]; exact Or.inl rfl
      · exact Or.inr (Or.inr h)
    · rw [hstep] at h2
      by_cases hlt : m.Pressure < s.pressMin
      · rw [if_pos hlt] at h2; omega
      · rw [if_neg hlt] at h2; exact h2
    · rw [hstep] at h2
      by_cases hlt : m.Pressure < s.pressMin
      · rw [if_pos hlt] at h2; exact h2
      · rw [if_neg hlt] at h2; omega

theorem foldl_step_pressMax {F : Type} [Float64Ops F] (l : List (MeasurementRecord F))
    (s : Sums F) :
    ((l.foldl Sums.step s).pressMax = s.pressMax
        ∨ (l.foldl Sums.step s).pressMax ∈ l.map (fun r => r.Pressure))
      ∧ s.pressMax ≤ (l.foldl Sums.step s).pressMax
      ∧ ∀ r ∈ l, r.Pressure ≤ (l.foldl Sums.step s).pressMax := by
  induction l generalizing s with
  | nil => simp
  | cons m rest ih =>
    obtain ⟨h1, h2, h3⟩ := ih (s.step m)
    have hstep : (s.step m).pressMax = if m.Pressure > s.pressMax then m.Pressure else s.pressMax :=
      rfl
    simp only [List.foldl_cons, List.map_cons, List.mem_cons, forall_eq_or_imp]
    refine ⟨?_, ?_, ?_, h3⟩
    · rcases h1 with h | h
      · rw [h, hstep]
        by_cases hlt : m.Pressure > s.pressMax
        · rw [if_pos hlt]; exact Or.inr (Or.inl rfl)
        · rw [if_neg hlt]; exact Or.inl rfl
      · exact Or.inr (Or.inr h)
    · rw [hstep] at h2
      by_cases hlt : m.Pressure > s.pressMax
      · rw [if_pos hlt] at h2; omega
      · rw [if_neg hlt] at h2; exact h2
    · rw [hstep] at h2
      by_cases hlt : m.Pressure > s.pressMax
      · rw [if_pos hlt] at h2; exact h2
      · rw [if_neg hlt] at h2; omega

/-- C12: on a non-empty group `calculateAggregates` returns, and `Pressure.Min`
and `Pressure.Max` of the result are set to the least and the greatest pressure
of the group: each is the pressure of a record of the group, and every record's
pressure lies between them. `AggregateMeasurements` only builds non-empty
groups, so none of its calls of `calculateAggregates` fails on `measurements[0]`
and it returns a result whatever the input. -/
theorem calculateAggregates_pressure_extremes {F : Type} [Float64Ops F] (loc : Location)
    (range : List (Int × List (MeasurementRecord F)) → List (Int × List (MeasurementRecord F)))
    (measurements group : List (MeasurementRecord F)) (date : Int) (kind : AggregationKind)
    (hrange : MapRange range) (hne : group ≠ []) :
    (∃ a mn mx, calculateAggregates group date kind = some a
        ∧ a.Pressure.Min = some mn ∧ a.Pressure.Max = some mx
        ∧ mn ∈ group.map (fun r => r.Pressure) ∧ mx ∈ group.map (fun r => r.Pressure)
        ∧ ∀ r ∈ group, mn ≤ r.Pressure ∧ r.Pressure ≤ mx)
      ∧ (∀ e ∈ range (groupMeasurements loc kind measurements),
          e.2 ≠ [] ∧ calculateAggregates e.2 e.1 kind ≠ none)
      ∧ AggregateMeasurements loc range measurements kind ≠ none := by
  refine ⟨?_, ?_, ?_⟩
  · cases group with
    | nil => exact absurd rfl hne
    | cons first rest =>
      obtain ⟨n1, _, n3⟩ := foldl_step_pressMin (first :: rest)
        (⟨Float64Ops.zero, first.Temperature, first.Temperature, Float64Ops.zero,
          Float64Ops.zero, first.Pressure, first.Pressure, 0⟩ : Sums F)
      obtain ⟨x1, _, x3⟩ := foldl_step_pressMax (first :: rest)
        (⟨Float64Ops.zero, first.Temperature, first.Temperature, Float64Ops.zero,
          Float64Ops.zero, first.Pressure, first.Pressure, 0⟩ : Sums F)
      refine ⟨_, _, _, rfl, rfl, rfl, ?_, ?_, fun r hr => ⟨n3 r hr, x3 r hr⟩⟩
      · rcases n1 with h | h
        · rw [h]; simp
        · exact h
      · rcases x1 with h | h
        · rw [h]; simp
        · exact h
  · intro e he
    have hmem := (hrange (groupMeasurements loc kind measurements)).subset he
    have hnonempty := (groupMeasurements_invariant loc kind measurements).2 e hmem
    obtain ⟨a, ha, _⟩ := calculateAggregates_some e.2 e.1 kind hnonempty
    exact ⟨hnonempty, by rw [ha]; simp⟩
  · by_cases hlen : measurements.length = 0
    · simp [AggregateMeasurements, hlen]
    · have hne2 : ∀ e ∈ range (groupMeasurements loc kind measurements), e.2 ≠ [] :=
        fun e he => (groupMeasurements_invariant loc kind measurements).2 e
          ((hrange (groupMeasurements loc kind measurements)).subset he)
      obtain ⟨hm, _⟩ := mapM_calculateAggregates kind _ hne2
      simp only [AggregateMeasurements, hlen, if_false, hm]
      simp

/-- C12 at the sample records taken as one group, the map visited in reverse
order. -/
theorem calculateAggregates_pressure_extremes_witness :
    (∃ a mn mx, calculateAggregates sampleRecords 0 Day = some a
        ∧ a.Pressure.Min = some mn ∧ a.Pressure.Max = some mx
        ∧ mn ∈ sampleRecords.map (fun r => r.Pressure)
        ∧ mx ∈ sampleRecords.map (fun r => r.Pressure)
        ∧ ∀ r ∈ sampleRecords, mn ≤ r.Pressure ∧ r.Pressure ≤ mx)
      ∧ (∀ e ∈ List.reverse (groupMeasurements Location.UTC Day sampleRecords),
          e.2 ≠ [] ∧ calculateAggregates e.2 e.1 Day ≠ none)
      ∧ AggregateMeasurements Location.UTC List.reverse sampleRecords Day ≠ none :=
  calculateAggregates_pressure_extremes Location.UTC List.reverse sampleRecords sampleRecords 0 Day
    (fun entries => List.reverse_perm entries) (by decide)

/-! ## Theorems: buckets -/

theorem filter_append_singleton {F : Type} (p : MeasurementRecord F → Bool)
    (seen : List (MeasurementRecord F)) (m : MeasurementRecord F) :
    (seen ++ [m]).filter p = seen.filter p ++ (if p m then [m] else []) := by
  by_cases h : p m <;> simp [List.filter_append, List.filter_cons, h]

theorem appendGroup_groups {F : Type} (keyOf : MeasurementRecord F → Int)
    (m : MeasurementRecord F) (seen : List (MeasurementRecord F))
    (acc : List (Int × List (MeasurementRecord F)))
    (hnd : (acc.map Prod.fst).Nodup)
    (hgroups : ∀ e ∈ acc, e.2 = seen.filter (fun x => decide (keyOf x = e.1)))
    (hempty : keyOf m ∉ acc.map Prod.fst →
      seen.filter (fun x => decide (keyOf x = keyOf m)) = []) :
    ∀ e ∈ appendGroup (keyOf m) m acc,
      e.2 = (seen ++ [m]).filter (fun x => decide (keyOf x = e.1)) := by
  have other : ∀ e : Int × List (MeasurementRecord F), e.1 ≠ keyOf m →
      e.2 = seen.filter (fun x => decide (keyOf x = e.1)) →
      e.2 = (seen ++ [m]).filter (fun x => decide (keyOf x = e.1)) := by
    intro e hk he
    have hk2 : ¬ keyOf m = e.1 := fun h => hk h.symm
    rw [filter_append_singleton, he]
    simp [hk2]
  induction acc with
  | nil =>
    intro e he
    simp only [appendGroup, List.mem_singleton] at he
    subst he
    rw [filter_append_singleton, hempty (by simp)]
    simp
  | cons e0 rest ih =>
    obtain ⟨k0, g0⟩ := e0
    have hnd2 : k0 ∉ rest.map Prod.fst ∧ (rest.map Prod.fst).Nodup := by
      rw [List.map_cons] at hnd
      exact List.nodup_cons.mp hnd
    intro e he
    by_cases hk : k0 = keyOf m
    · simp only [appendGroup, hk, if_true, List.mem_cons] at he
      rcases he with he | he
      · subst he
        have hg := hgroups (k0, g0) (by simp)
        simp only at hg
        rw [filter_append_singleton, hg, hk]
        simp
      · refine other e ?_ (hgroups e (List.mem_cons_of_mem _ he))
        intro heq
        apply hnd2.1
        have hmem : e.1 ∈ rest.map Prod.fst := List.mem_map_of_mem Prod.fst he
        rwa [heq, ← hk] at hmem
    · simp only [appendGroup, hk, if_false, List.mem_cons] at he
      rcases he with he | he
      · subst he
        exact other (k0, g0) hk (hgroups (k0, g0) (by simp))
      · refine ih hnd2.2 (fun x hx => hgroups x (List.mem_cons_of_mem _ hx)) ?_ e he
        intro hnot
        apply hempty
        simp only [List.map_cons, List.mem_cons, not_or]
        exact ⟨fun h => hk h.symm, hnot⟩

theorem foldl_appendGroup_groups {F : Type} (keyOf : MeasurementRecord F → Int)
    (l seen : List (MeasurementRecord F)) (acc : List (Int × List (MeasurementRecord F)))
    (hnd : (acc.map Prod.fst).Nodup)
    (hgroups : ∀ e ∈ acc, e.2 = seen.filter (fun x => decide (keyOf x = e.1)))
    (hcover : ∀ x ∈ seen, keyOf x ∈ acc.map Prod.fst) :
    (∀ e ∈ l.foldl (fun grouped m => appendGroup (keyOf m) m grouped) acc,
        e.2 = (seen ++ l).filter (fun x => decide (keyOf x = e.1)))
      ∧ ∀ x ∈ seen ++ l,
          keyOf x ∈ (l.foldl (fun grouped m => appendGroup (keyOf m) m grouped) acc).map
            Prod.fst := by
  induction l generalizing seen acc with
  | nil =>
    simp only [List.foldl_nil, List.append_nil]
    exact ⟨hgroups, hcover⟩
  | cons m rest ih =>
    have hstep := ih (seen ++ [m]) (appendGroup (keyOf m) m acc)
      (appendGroup_nodup _ _ _ hnd)
      (appendGroup_groups keyOf m seen acc hnd hgroups (by
        intro hnot
        rw [List.filter_eq_nil_iff]
        intro x hx hkey
        apply hnot
        have := hcover x hx
        rwa [of_decide_eq_true hkey] at this))
      (by
        intro x hx
        rw [appendGroup_keys]
        rcases List.mem_append.mp hx with h | h
        · by_cases hmem : keyOf m ∈ acc.map Prod.fst
          · rw [if_pos hmem]; exact hcover x h
          · rw [if_neg hmem]; exact List.mem_append_left _ (hcover x h)
        · have hx2 : x = m := by simpa using h
          subst hx2
          by_cases hmem : keyOf x ∈ acc.map Prod.fst
          · rw [if_pos hmem]; exact hmem
          · rw [if_neg hmem]; simp)
    simpa [List.append_assoc] using hstep

theorem groupMeasurements_groups {F : Type} (loc : Location) (kind : AggregationKind)
    (measurements : List (MeasurementRecord F)) :
    (∀ e ∈ groupMeasurements loc kind measurements,
        e.2 = measurements.filter (fun x => decide (groupKey loc kind x.Timestamp = e.1)))
      ∧ ∀ x ∈ measurements,
          groupKey loc kind x.Timestamp ∈ (groupMeasurements loc kind measurements).map Prod.fst := by
  have h := foldl_appendGroup_groups (fun x => groupKey loc kind x.Timestamp) measurements [] []
    List.nodup_nil (by simp) (by simp)
  simpa [groupMeasurements] using h

theorem date_of_fixed_offset (loc : Location) (off : Int)
    (h : ∀ u, (loc.lookup u).offset = off) (wall : Int) : loc.Date wall = wall - off := by
  unfold Location.Date
  by_cases h0 : off = 0
  · simp [h, h0]
  · simp only [h, ne_eq, h0, not_false_eq_true, if_true, ite_self]

theorem unix_ofUnix (sec : Int) : (Time.ofUnix sec).Unix = sec := by
  unfold Time.ofUnix Time.Unix
  exact Int.mul_ediv_cancel sec (by decide)

theorem groupKey_of_fixed_offset (loc : Location) (off : Int)
    (h : ∀ u, (loc.lookup u).offset = off) (ts : Time) :
    groupKey loc Minute ts = ts.Unix - (ts.Unix + off) % 60
      ∧ groupKey loc Hour ts = ts.Unix - (ts.Unix + off) % 3600
      ∧ groupKey loc Day ts = ts.Unix - (ts.Unix + off) % 86400 := by
  refine ⟨?_, ?_, ?_⟩ <;>
    simp [groupKey, unix_ofUnix, Location.wall, h, date_of_fixed_offset loc off h, Minute, Hour,
      Day] <;> omega

theorem date_of_same_offset (loc : Location) (wall off : Int)
    (h1 : (loc.lookup wall).offset = off)
    (h2 : ((loc.lookup wall).start ≤ wall - off ∧ wall - off < (loc.lookup wall).stop)
      ∨ (loc.lookup (wall - off)).offset = off) :
    loc.Date wall = wall - off := by
  unfold Location.Date
  by_cases h0 : off = 0
  · simp [h1, h0]
  · simp only [h1, ne_eq, h0, not_false_eq_true, if_true]
    by_cases hc : wall - off < (loc.lookup wall).start ∨ wall - off ≥ (loc.lookup wall).stop
    · rw [if_pos hc]
      rcases h2 with h | h
      · omega
      · rw [h]
    · rw [if_neg hc]

theorem groupKey_of_same_offset (loc : Location) (ts : Time) :
    (SameOffsetAtBucketStart loc 60 ts.Unix →
        groupKey loc Minute ts = bucketStartSpec loc 60 ts.Unix)
      ∧ (SameOffsetAtBucketStart loc 3600 ts.Unix →
        groupKey loc Hour ts = bucketStartSpec loc 3600 ts.Unix)
      ∧ (SameOffsetAtBucketStart loc 86400 ts.Unix →
        groupKey loc Day ts = bucketStartSpec loc 86400 ts.Unix) := by
  have key : ∀ period : Int, SameOffsetAtBucketStart loc period ts.Unix →
      loc.Date (loc.wall ts.Unix - loc.wall ts.Unix % period)
        = bucketStartSpec loc period ts.Unix := by
    intro period h
    have hstart : loc.wall ts.Unix - loc.wall ts.Unix % period - (loc.lookup ts.Unix).offset
        = bucketStartSpec loc period ts.Unix := by
      simp only [bucketStartSpec, Location.wall]
      omega
    rw [date_of_same_offset loc _ (loc.lookup ts.Unix).offset h.1 (by rw [hstart]; exact h.2),
      hstart]
  refine ⟨fun h => ?_, fun h => ?_, fun h => ?_⟩
  · simpa [groupKey, unix_ofUnix, Minute] using key 60 h
  · simpa [groupKey, unix_ofUnix, Minute, Hour] using key 3600 h
  · simpa [groupKey, unix_ofUnix, Minute, Hour, Day] using key 86400 h

end Atmosbyte
